import Mathlib

/-!
Verification of the `policyutil` package of go-tpm2 (policy execution and
branch-resolution engine).  The Go source is shallowly embedded: byte strings
become `List Nat` (each entry < 256 where it matters), fallible functions
return `Option`/`Except`, and the hash primitive of the compute policy
session — whose implementation lives outside the provided sources — is a
parameter `H : List Nat → List Nat`.
-/

namespace PolicyUtil

/-- A digest is a byte string. -/
abbrev Digest := List Nat

/-- Embeds `ensureSufficientORDigests` (branch.go): turns a single digest into
a pair of identical digests, because TPM2_PolicyOR assertions require more
than one digest. -/
def ensureSufficientORDigests (digests : List Digest) : List Digest :=
  match digests with
  | [d] => [d, d]
  | _ => digests

/-- Big-endian bytes of the TPM2_PolicyOR command code (TPM_CC_PolicyOR = 0x171). -/
def ccPolicyOR : List Nat := [0x00, 0x00, 0x01, 0x71]

/-- Modelled from the spec: the compute policy session (`newComputePolicySession`,
not among the provided sources) updates its digest on `PolicyOR` by replacing it
with the hash of the command code followed by the concatenation of the supplied
digest list (spec §4.3: PolicyOR replaces the digest with
`H(commandCode ‖ combine(list))`); the previous session digest is not an input.
The hash primitive is the parameter `H`. -/
def policyORUpdate (H : List Nat → List Nat) (digests : List Digest) : Digest :=
  H (ccPolicyOR ++ digests.flatten)

/-- Replaying a sequence of digest-lists through the compute session's
TPM2_PolicyOR update rule, starting from digest `d0`. -/
def replayOR (H : List Nat → List Nat) (lists : List (List Digest)) (d0 : Digest) : Digest :=
  lists.foldl (fun _ l => policyORUpdate H l) d0

/-- Embeds the chunking of the digest list in `newPolicyOrTree`'s inner loop
(branch.go lines 63-85): the list is consumed eight digests at a time. -/
def chunks8 : List Digest → List (List Digest)
  | [] => []
  | d :: rest => (d :: rest).take 8 :: chunks8 ((d :: rest).drop 8)
termination_by l => l.length
decreasing_by simp; omega

/-- One level of `newPolicyOrTree`'s outer loop: the nodes produced from the
current digest list are the ≤ 8-sized chunks, stored after
`ensureSufficientORDigests` (branch.go line 73). -/
def orTreeLevelNodes (digests : List Digest) : List (List Digest) :=
  (chunks8 digests).map ensureSufficientORDigests

/-- The digests passed up to the parent level: one compute-session PolicyOR
update per node (branch.go lines 78-80). -/
def orTreeNextDigests (H : List Nat → List Nat) (digests : List Digest) : List Digest :=
  (orTreeLevelNodes digests).map (policyORUpdate H)

theorem chunks8_length (l : List Digest) : (chunks8 l).length = (l.length + 7) / 8 := by
  induction l using chunks8.induct with
  | case1 => simp [chunks8]
  | case2 d rest ih =>
    rw [chunks8]
    simp only [List.length_cons, List.length_drop] at ih ⊢
    omega

/-- Embeds the outer loop of `newPolicyOrTree` (branch.go lines 55-104): the
levels of the tree, from the leaf level up to the root level, each level being
the list of its nodes' stored digest lists.  The Go loop terminates when the
level just built has a single node, i.e. when the digest list it consumed had
at most eight entries; the loop is modelled by well-founded recursion on the
length of the digest list (the Go caller rejects the empty list before the
loop is reached). -/
def orTreeLevels (H : List Nat → List Nat) (digests : List Digest) : List (List (List Digest)) :=
  if digests.length ≤ 8 then
    [orTreeLevelNodes digests]
  else
    orTreeLevelNodes digests :: orTreeLevels H (orTreeNextDigests H digests)
termination_by digests.length
decreasing_by
  simp only [orTreeNextDigests, orTreeLevelNodes, List.length_map, chunks8_length]
  omega

/-- A `policyOrTree`, represented by its levels from leaves to root; the Go
structure stores the leaf nodes with parent pointers, with the node at index
`j` of one level having as parent the node at index `j >>> 3` of the next
level (branch.go lines 89-91). -/
structure PolicyOrTree where
  levels : List (List (List Digest))
deriving Repr, DecidableEq

/-- Maximum number of OR digests (branch.go line 21). -/
def policyOrMaxDigests : Nat := 4096

/-- Embeds `newPolicyOrTree` (branch.go lines 45-107). -/
def newPolicyOrTree (H : List Nat → List Nat) (digests : List Digest) :
    Except String PolicyOrTree :=
  if digests.length = 0 then
    .error "no digests"
  else if digests.length > policyOrMaxDigests then
    .error "too many digests"
  else
    .ok ⟨orTreeLevels H digests⟩

/-- The walk of `policyOrTree.selectBranch` (branch.go lines 109-118) through
the level representation: starting at node index `i >>> 3` of the leaf level,
each level contributes its node's digest list (re-ensured on read) and the
walk moves to the parent node at index `j >>> 3` of the next level. -/
def selectChain : List (List (List Digest)) → Nat → List (List Digest)
  | [], _ => []
  | lvl :: rest, j => ensureSufficientORDigests (lvl.getD j []) :: selectChain rest (j / 8)

/-- Embeds `policyOrTree.selectBranch` (branch.go lines 109-118): the ordered
digest-lists from the leaf holding index `i` up to the root. -/
def selectBranch (t : PolicyOrTree) (i : Nat) : List (List Digest) :=
  selectChain t.levels (i / 8)

/-- The root digest of the tree: the compute-session PolicyOR update applied
to the root node's digests (this is the single digest left over when
`newPolicyOrTree`'s outer loop exits). -/
def rootDigest (H : List Nat → List Nat) (t : PolicyOrTree) : Digest :=
  policyORUpdate H (ensureSufficientORDigests ((t.levels.getLastD []).getD 0 []))

/-- A concrete stand-in for the hash primitive, used to instantiate theorems
that are universally quantified over the hash function. -/
def sampleHash : List Nat → List Nat :=
  fun l => [l.foldl (fun a b => a + b) 0 % 256, l.length % 256]

theorem ensure_length {l : List Digest} (h : l ≠ []) :
    2 ≤ (ensureSufficientORDigests l).length := by
  match l with
  | [] => exact absurd rfl h
  | [d] => simp [ensureSufficientORDigests]
  | a :: b :: t => simp [ensureSufficientORDigests]

theorem orTreeLevelNodes_length (ds : List Digest) :
    (orTreeLevelNodes ds).length = (ds.length + 7) / 8 := by
  simp [orTreeLevelNodes, chunks8_length]

theorem selectChain_length (lvls : List (List (List Digest))) (j : Nat) :
    (selectChain lvls j).length = lvls.length := by
  induction lvls generalizing j with
  | nil => rfl
  | cons lvl rest ih => simp [selectChain, ih]

theorem orTreeLevels_ne_nil (H : List Nat → List Nat) (ds : List Digest) :
    orTreeLevels H ds ≠ [] := by
  rw [orTreeLevels]
  split <;> simp

theorem getLastD_cons_of_ne_nil {α : Type} {l : List α} (h : l ≠ []) (a d : α) :
    (a :: l).getLastD d = l.getLastD d := by
  match l with
  | [] => exact absurd rfl h
  | b :: t => rfl

theorem orTreeLevels_length_aux (H : List Nat → List Nat) :
    ∀ n (ds : List Digest), ds.length = n → 0 < n →
      (orTreeLevels H ds).length = max 1 (Nat.clog 8 n) := by
  intro n
  induction n using Nat.strong_induction_on with
  | _ n ih =>
    intro ds hlen hpos
    rw [orTreeLevels]
    by_cases hle : ds.length ≤ 8
    · rw [if_pos hle]
      have : Nat.clog 8 n ≤ 1 := by
        rcases Nat.lt_or_ge n 2 with h2 | h2
        · simp [Nat.clog_of_right_le_one (by omega : n ≤ 1)]
        · exact le_of_eq (Nat.clog_eq_one h2 (by omega))
      simp
      omega
    · rw [if_neg hle]
      have hnext : (orTreeNextDigests H ds).length = (n + 7) / 8 := by
        simp [orTreeNextDigests, orTreeLevelNodes_length, hlen]
      have hrec := ih ((n + 7) / 8) (by omega) (orTreeNextDigests H ds) hnext (by omega)
      rw [List.length_cons, hrec]
      have hc : Nat.clog 8 n = Nat.clog 8 ((n + 7) / 8) + 1 :=
        Nat.clog_of_two_le (by omega) (by omega)
      have hcpos : 0 < Nat.clog 8 ((n + 7) / 8) :=
        Nat.clog_pos (by omega) (by omega)
      omega

/-- The depth of the tree built from `N` digests is `max 1 ⌈log₈ N⌉`. -/
theorem orTreeLevels_length (H : List Nat → List Nat) (ds : List Digest)
    (hds : 0 < ds.length) :
    (orTreeLevels H ds).length = max 1 (Nat.clog 8 ds.length) :=
  orTreeLevels_length_aux H ds.length ds rfl hds

/-- Replaying the digest-list chain for any in-range leaf index through the
compute session's PolicyOR update rule ends at the root digest, from any
starting digest. -/
theorem replay_selectChain (H : List Nat → List Nat) :
    ∀ n (ds : List Digest), ds.length = n →
      ∀ j d0, j < (orTreeLevelNodes ds).length →
        replayOR H (selectChain (orTreeLevels H ds) j) d0 =
          rootDigest H ⟨orTreeLevels H ds⟩ := by
  intro n
  induction n using Nat.strong_induction_on with
  | _ n ih =>
    intro ds hlen j d0 hj
    rw [orTreeLevels]
    by_cases hle : ds.length ≤ 8
    · rw [if_pos hle]
      have hnl : (orTreeLevelNodes ds).length = (ds.length + 7) / 8 :=
        orTreeLevelNodes_length ds
      have hj0 : j = 0 := by omega
      subst hj0
      simp [selectChain, replayOR, rootDigest]
    · rw [if_neg hle]
      have hnext : (orTreeNextDigests H ds).length = (ds.length + 7) / 8 := by
        simp [orTreeNextDigests, orTreeLevelNodes_length]
      have hnodes : (orTreeLevelNodes (orTreeNextDigests H ds)).length =
          ((ds.length + 7) / 8 + 7) / 8 := by
        rw [orTreeLevelNodes_length, hnext]
      have hnl : (orTreeLevelNodes ds).length = (ds.length + 7) / 8 :=
        orTreeLevelNodes_length ds
      have hj8 : j / 8 < (orTreeLevelNodes (orTreeNextDigests H ds)).length := by
        omega
      have hrec := ih ((ds.length + 7) / 8) (by omega) (orTreeNextDigests H ds) hnext
        (j / 8) (policyORUpdate H
          (ensureSufficientORDigests ((orTreeLevelNodes ds).getD j []))) hj8
      simp only [selectChain, replayOR, List.foldl_cons] at hrec ⊢
      rw [hrec]
      have hne : orTreeLevels H (orTreeNextDigests H ds) ≠ [] :=
        orTreeLevels_ne_nil H _
      simp only [rootDigest]
      rw [getLastD_cons_of_ne_nil hne]

/-- C1: for every non-empty digest list of `N ≤ 4096` digests,
`newPolicyOrTree` succeeds, the resulting tree has depth `⌈log₈ N⌉` (with
`N = 1` giving depth 1), and for every leaf index `i < N` replaying the
ordered digest-lists returned by `selectBranch i` through the compute
session's TPM2_PolicyOR update rule, starting from an all-zero digest of the
algorithm's size, yields the same final digest for every leaf: the single
root digest of the tree. -/
theorem newPolicyOrTree_converges (H : List Nat → List Nat) (digests : List Digest)
    (algSize : Nat) (h1 : 0 < digests.length) (h2 : digests.length ≤ 4096) :
    ∃ t : PolicyOrTree, newPolicyOrTree H digests = .ok t ∧
      t.levels.length = max 1 (Nat.clog 8 digests.length) ∧
      (∀ i < digests.length,
        (selectBranch t i).length = max 1 (Nat.clog 8 digests.length)) ∧
      (∀ i < digests.length,
        replayOR H (selectBranch t i) (List.replicate algSize 0) = rootDigest H t) := by
  refine ⟨⟨orTreeLevels H digests⟩, ?_, ?_, ?_, ?_⟩
  · rw [newPolicyOrTree, if_neg (by omega), if_neg (by simp [policyOrMaxDigests]; omega)]
  · exact orTreeLevels_length H digests h1
  · intro i hi
    rw [selectBranch, selectChain_length]
    exact orTreeLevels_length H digests h1
  · intro i hi
    apply replay_selectChain H digests.length digests rfl
    rw [orTreeLevelNodes_length]
    omega

theorem newPolicyOrTree_converges_witness :
    0 < ([[1], [2], [3]] : List Digest).length ∧
    ([[1], [2], [3]] : List Digest).length ≤ 4096 ∧
    ∃ t : PolicyOrTree, newPolicyOrTree sampleHash [[1], [2], [3]] = .ok t ∧
      t.levels.length = max 1 (Nat.clog 8 ([[1], [2], [3]] : List Digest).length) ∧
      (∀ i < ([[1], [2], [3]] : List Digest).length,
        (selectBranch t i).length =
          max 1 (Nat.clog 8 ([[1], [2], [3]] : List Digest).length)) ∧
      (∀ i < ([[1], [2], [3]] : List Digest).length,
        replayOR sampleHash (selectBranch t i) (List.replicate 32 0) =
          rootDigest sampleHash t) :=
  ⟨by decide, by decide,
    newPolicyOrTree_converges sampleHash [[1], [2], [3]] 32 (by decide) (by decide)⟩

/-- C6: building a PolicyOrTree from a list containing exactly one digest
produces a tree with exactly one leaf node (its only level holds the single
node `[d, d]`), every stored node holds at least two digests, and reading the
leaf via `selectBranch 0` yields a single digest list containing the input
digest duplicated into a pair. -/
theorem newPolicyOrTree_singleDigest (H : List Nat → List Nat) (d : Digest) :
    newPolicyOrTree H [d] = .ok ⟨[[[d, d]]]⟩ ∧
    (∀ lvl ∈ (PolicyOrTree.mk [[[d, d]]]).levels, ∀ node ∈ lvl, 2 ≤ node.length) ∧
    selectBranch ⟨[[[d, d]]]⟩ 0 = [[d, d]] := by
  refine ⟨?_, ?_, ?_⟩
  · rw [newPolicyOrTree, if_neg (by simp), if_neg (by simp [policyOrMaxDigests])]
    rw [orTreeLevels]
    simp only [List.length_cons, List.length_nil, if_pos (by omega : 0 + 1 ≤ 8)]
    rw [orTreeLevelNodes, chunks8]
    simp [chunks8, ensureSufficientORDigests]
  · intro lvl hlvl node hnode
    simp only [List.mem_singleton] at hlvl
    subst hlvl
    simp only [List.mem_singleton] at hnode
    subst hnode
    simp
  · simp [selectBranch, selectChain, ensureSufficientORDigests]

/-! ### TPM2 arithmetic operators (`bufferMatch`, branch.go lines 344-415) -/

/-- The `tpm2.ArithmeticOp` operators used by TPM2_PolicyCounterTimer and
TPM2_PolicyNV assertions. -/
inductive ArithmeticOp where
  | opEq
  | opNeq
  | opSignedGT
  | opUnsignedGT
  | opSignedLT
  | opUnsignedLT
  | opSignedGE
  | opUnsignedGE
  | opSignedLE
  | opUnsignedLE
  | opBitset
  | opBitclear
deriving DecidableEq, Repr

/-- Embeds Go's `bytes.Compare`: lexicographic byte-wise comparison returning
-1, 0 or +1. -/
def bytesCompare : List Nat → List Nat → Int
  | [], [] => 0
  | [], _ :: _ => -1
  | _ :: _, [] => 1
  | a :: as, b :: bs =>
    if a < b then -1 else if b < a then 1 else bytesCompare as bs

/-- Embeds `policyBranchSelector.bufferMatch` (branch.go lines 344-415) for
equal-length operands (the Go code panics on mismatched operand sizes). -/
def bufferMatch (operandA operandB : List Nat) (operation : ArithmeticOp) : Bool :=
  match operation with
  | .opEq => operandA == operandB
  | .opNeq => !(operandA == operandB)
  | .opSignedGT =>
    if operandA.length = 0 then false
    else if 0 < (operandA.headD 0 ^^^ operandB.headD 0) &&& 0x80 then
      operandA.headD 0 &&& 0x80 == 0
    else decide (0 < bytesCompare operandA operandB)
  | .opUnsignedGT => decide (0 < bytesCompare operandA operandB)
  | .opSignedLT =>
    if operandA.length = 0 then false
    else if 0 < (operandA.headD 0 ^^^ operandB.headD 0) &&& 0x80 then
      decide (0 < operandA.headD 0 &&& 0x80)
    else decide (bytesCompare operandA operandB < 0)
  | .opUnsignedLT => decide (bytesCompare operandA operandB < 0)
  | .opSignedGE =>
    if operandA.length = 0 then true
    else if 0 < (operandA.headD 0 ^^^ operandB.headD 0) &&& 0x80 then
      operandA.headD 0 &&& 0x80 == 0
    else decide (0 ≤ bytesCompare operandA operandB)
  | .opUnsignedGE => decide (0 ≤ bytesCompare operandA operandB)
  | .opSignedLE =>
    if operandA.length = 0 then true
    else if 0 < (operandA.headD 0 ^^^ operandB.headD 0) &&& 0x80 then
      decide (0 < operandA.headD 0 &&& 0x80)
    else decide (bytesCompare operandA operandB ≤ 0)
  | .opUnsignedLE => decide (bytesCompare operandA operandB ≤ 0)
  | .opBitset =>
    (operandA.zip operandB).all fun p => p.1 &&& p.2 == p.2
  | .opBitclear =>
    (operandA.zip operandB).all fun p => p.1 &&& p.2 == 0

/-- Big-endian unsigned interpretation of a byte string (spec side of C5). -/
def beNat : List Nat → Nat
  | [] => 0
  | a :: as => a * 256 ^ as.length + beNat as

/-- Big-endian two's-complement signed interpretation of a byte string (spec
side of C5): if the most significant bit is set the value is the unsigned
interpretation minus `2 ^ (8 · length)`. -/
def beInt (l : List Nat) : Int :=
  if 128 ≤ l.headD 0 then (beNat l : Int) - 2 ^ (8 * l.length) else (beNat l : Int)

/-- Every bit set in `b` is also set in `a` (spec side of OpBitset). -/
def bitsSubset (a b : List Nat) : Prop :=
  ∀ i k, (b.getD i 0).testBit k = true → (a.getD i 0).testBit k = true

/-- No bit set in `b` is set in `a` (spec side of OpBitclear). -/
def bitsDisjoint (a b : List Nat) : Prop :=
  ∀ i k, ¬((a.getD i 0).testBit k = true ∧ (b.getD i 0).testBit k = true)

theorem beNat_lt {l : List Nat} (h : ∀ x ∈ l, x < 256) : beNat l < 256 ^ l.length := by
  induction l with
  | nil => simp [beNat]
  | cons a as ih =>
    have ha : a < 256 := h a (by simp)
    have hx := ih fun x hx => h x (by simp [hx])
    simp only [beNat, List.length_cons, pow_succ]
    calc a * 256 ^ as.length + beNat as
        < (a + 1) * 256 ^ as.length := by
          rw [Nat.succ_mul]
          omega
      _ ≤ 256 * 256 ^ as.length := Nat.mul_le_mul_right _ (by omega)
      _ = 256 ^ as.length * 256 := by ring

theorem beNat_cons_lt {a b : Nat} {as bs : List Nat} (hab : a < b)
    (hlen : as.length = bs.length) (has : beNat as < 256 ^ as.length) :
    beNat (a :: as) < beNat (b :: bs) := by
  simp only [beNat]
  calc a * 256 ^ as.length + beNat as
      < (a + 1) * 256 ^ as.length := by
        rw [Nat.succ_mul]
        omega
    _ ≤ b * 256 ^ as.length := Nat.mul_le_mul_right _ (by omega)
    _ = b * 256 ^ bs.length := by rw [hlen]
    _ ≤ b * 256 ^ bs.length + beNat bs := Nat.le_add_right _ _

theorem bytesCompare_spec : ∀ (a b : List Nat), a.length = b.length →
    (∀ x ∈ a, x < 256) → (∀ x ∈ b, x < 256) →
    (bytesCompare a b < 0 ↔ beNat a < beNat b) ∧
    (bytesCompare a b = 0 ↔ a = b) ∧
    (0 < bytesCompare a b ↔ beNat b < beNat a)
  | [], [], _, _, _ => by simp [bytesCompare, beNat]
  | [], _ :: _, h, _, _ => by simp at h
  | _ :: _, [], h, _, _ => by simp at h
  | a :: as, b :: bs, hlen, ha, hb => by
    have hlen' : as.length = bs.length := by simpa using hlen
    have ha' : ∀ x ∈ as, x < 256 := fun x hx => ha x (by simp [hx])
    have hb' : ∀ x ∈ bs, x < 256 := fun x hx => hb x (by simp [hx])
    have ih := bytesCompare_spec as bs hlen' ha' hb'
    rw [bytesCompare]
    rcases Nat.lt_trichotomy a b with h1 | h1 | h1
    · rw [if_pos h1]
      have hord : beNat (a :: as) < beNat (b :: bs) :=
        beNat_cons_lt h1 hlen' (beNat_lt ha')
      refine ⟨by simp [hord], ?_, ?_⟩
      · constructor
        · intro h
          norm_num at h
        · intro h
          simp only [List.cons.injEq] at h
          omega
      · constructor
        · intro h
          norm_num at h
        · intro h
          omega
    · subst h1
      rw [if_neg (by omega), if_neg (by omega)]
      have h2 : beNat (a :: as) < beNat (a :: bs) ↔ beNat as < beNat bs := by
        simp only [beNat, hlen']
        omega
      have h3 : beNat (a :: bs) < beNat (a :: as) ↔ beNat bs < beNat as := by
        simp only [beNat, hlen']
        omega
      refine ⟨ih.1.trans h2.symm, ?_, ih.2.2.trans h3.symm⟩
      rw [ih.2.1]
      simp
    · rw [if_neg (by omega), if_pos h1]
      have hord : beNat (b :: bs) < beNat (a :: as) :=
        beNat_cons_lt h1 hlen'.symm (beNat_lt hb')
      refine ⟨?_, ?_, by simp [hord]⟩
      · constructor
        · intro h
          norm_num at h
        · intro h
          omega
      · constructor
        · intro h
          norm_num at h
        · intro h
          simp only [List.cons.injEq] at h
          omega

theorem testBit7_iff {x : Nat} (hx : x < 256) : x.testBit 7 = true ↔ 128 ≤ x := by
  rw [Nat.testBit_to_div_mod]
  have h7 : (2 : Nat) ^ 7 = 128 := by norm_num
  rw [h7]
  simp only [decide_eq_true_eq]
  omega

theorem land128_pos_iff (x : Nat) : 0 < x &&& 128 ↔ x.testBit 7 = true := by
  have h := Nat.and_two_pow x 7
  norm_num at h
  rw [h]
  cases hx : x.testBit 7 <;> simp

theorem land128_eq_zero_iff (x : Nat) : x &&& 128 = 0 ↔ x.testBit 7 = false := by
  have h := Nat.and_two_pow x 7
  norm_num at h
  rw [h]
  cases hx : x.testBit 7 <;> simp

theorem xor_msb_pos_iff (x y : Nat) :
    0 < (x ^^^ y) &&& 128 ↔ x.testBit 7 ≠ y.testBit 7 := by
  rw [land128_pos_iff, Nat.testBit_xor]
  cases hx : x.testBit 7 <;> cases hy : y.testBit 7 <;> simp

theorem beNat_lt_twoPow {l : List Nat} (h : ∀ x ∈ l, x < 256) :
    (beNat l : Int) < 2 ^ (8 * l.length) := by
  have h1 := beNat_lt h
  have h2 : (256 : Nat) ^ l.length = 2 ^ (8 * l.length) := by
    rw [pow_mul]
    norm_num
  rw [h2] at h1
  exact_mod_cast h1

theorem beInt_nonneg {l : List Nat} (h : l.headD 0 < 128) : 0 ≤ beInt l := by
  rw [beInt, if_neg (by omega)]
  positivity

theorem beInt_neg {l : List Nat} (hmsb : 128 ≤ l.headD 0) (h : ∀ x ∈ l, x < 256) :
    beInt l < 0 := by
  rw [beInt, if_pos hmsb]
  have := beNat_lt_twoPow h
  omega

theorem beInt_lt_iff_of_same_msb {a b : List Nat} (hlen : a.length = b.length)
    (hmsb : (128 ≤ a.headD 0) ↔ (128 ≤ b.headD 0)) :
    beInt a < beInt b ↔ beNat a < beNat b := by
  rw [beInt, beInt, hlen]
  by_cases h : 128 ≤ b.headD 0
  · rw [if_pos (hmsb.mpr h), if_pos h]
    constructor <;> intro <;> omega
  · rw [if_neg (fun hc => h (hmsb.mp hc)), if_neg h]
    constructor <;> intro <;> omega

theorem zip_all_iff (f : Nat × Nat → Bool) : ∀ (a b : List Nat), a.length = b.length →
    ((a.zip b).all f = true ↔
      ∀ i < a.length, f (a.getD i 0, b.getD i 0) = true)
  | [], [], _ => by simp
  | [], _ :: _, h => by simp at h
  | _ :: _, [], h => by simp at h
  | a :: as, b :: bs, hlen => by
    have hlen' : as.length = bs.length := by simpa using hlen
    have ih := zip_all_iff f as bs hlen'
    simp only [List.zip_cons_cons, List.all_cons, Bool.and_eq_true, ih]
    constructor
    · rintro ⟨h0, hrest⟩ i hi
      match i with
      | 0 => exact h0
      | i + 1 =>
        simp only [List.getD_cons_succ]
        exact hrest i (by simpa using hi)
    · intro h
      refine ⟨h 0 (by simp), fun i hi => ?_⟩
      have := h (i + 1) (by simpa using hi)
      simpa using this

theorem land_eq_right_iff (x y : Nat) :
    x &&& y = y ↔ ∀ k, y.testBit k = true → x.testBit k = true := by
  constructor
  · intro h k hk
    have := congrArg (fun n => n.testBit k) h
    simp only [Nat.testBit_land, hk, Bool.and_true] at this
    exact this
  · intro h
    apply Nat.eq_of_testBit_eq
    intro k
    rw [Nat.testBit_land]
    cases hy : y.testBit k
    · simp
    · simp [h k hy]

theorem land_eq_zero_iff (x y : Nat) :
    x &&& y = 0 ↔ ∀ k, ¬(x.testBit k = true ∧ y.testBit k = true) := by
  constructor
  · rintro h k ⟨hx, hy⟩
    have := congrArg (fun n => n.testBit k) h
    simp only [Nat.testBit_land, hx, hy, Nat.zero_testBit] at this
    simp at this
  · intro h
    apply Nat.eq_of_testBit_eq
    intro k
    rw [Nat.testBit_land, Nat.zero_testBit]
    cases hx : x.testBit k
    · simp
    · cases hy : y.testBit k
      · simp
      · exact absurd ⟨hx, hy⟩ (h k)

theorem length_eq_nil {b : List Nat} (h : b.length = 0) : b = [] :=
  List.eq_nil_of_length_eq_zero h

theorem bufferMatch_signedGT (a b : List Nat) (hlen : a.length = b.length)
    (ha : ∀ x ∈ a, x < 256) (hb : ∀ x ∈ b, x < 256) :
    bufferMatch a b .opSignedGT = true ↔ beInt b < beInt a := by
  match a, b with
  | [], b =>
    have hb0 : b = [] := length_eq_nil (by simpa using hlen.symm)
    subst hb0
    simp [bufferMatch, beInt, beNat]
  | a0 :: as, [] => simp at hlen
  | a0 :: as, b0 :: bs =>
    have ha0 : a0 < 256 := ha a0 (by simp)
    have hb0 : b0 < 256 := hb b0 (by simp)
    have h7a := testBit7_iff ha0
    have h7b := testBit7_iff hb0
    simp only [bufferMatch, List.length_cons, List.headD_cons]
    rw [if_neg (by omega)]
    by_cases hx : 0 < (a0 ^^^ b0) &&& 128
    · rw [if_pos hx]
      have hne : a0.testBit 7 ≠ b0.testBit 7 := (xor_msb_pos_iff _ _).mp hx
      by_cases hma : 128 ≤ a0
      · have hmb : ¬ 128 ≤ b0 := fun hmb => hne (by rw [h7a.mpr hma, h7b.mpr hmb])
        have hA : beInt (a0 :: as) < 0 := beInt_neg (by simpa using hma) ha
        have hB : 0 ≤ beInt (b0 :: bs) := beInt_nonneg (by simp; omega)
        have hland : ¬ (a0 &&& 128 = 0) := by
          rw [land128_eq_zero_iff, h7a.mpr hma]
          simp
        simp only [beq_iff_eq]
        constructor
        · intro h
          exact absurd h hland
        · intro h
          exfalso
          omega
      · have hta : a0.testBit 7 = false := by
          rw [← Bool.not_eq_true, h7a]
          exact hma
        have hmb : 128 ≤ b0 := by
          by_contra hmb
          have htb : b0.testBit 7 = false := by
            rw [← Bool.not_eq_true, h7b]
            exact hmb
          exact hne (hta.trans htb.symm)
        have hA : 0 ≤ beInt (a0 :: as) := beInt_nonneg (by simp; omega)
        have hB : beInt (b0 :: bs) < 0 := beInt_neg (by simpa using hmb) hb
        have hland : a0 &&& 128 = 0 := (land128_eq_zero_iff _).mpr hta
        simp only [beq_iff_eq]
        constructor
        · intro _
          omega
        · intro _
          exact hland
    · rw [if_neg hx]
      have hsame : a0.testBit 7 = b0.testBit 7 := by
        by_contra hne
        exact hx ((xor_msb_pos_iff _ _).mpr hne)
      have hmsb : (128 ≤ (b0 :: bs).headD 0) ↔ (128 ≤ (a0 :: as).headD 0) := by
        simp only [List.headD_cons]
        rw [← h7a, ← h7b, hsame]
      have hlt := beInt_lt_iff_of_same_msb hlen.symm hmsb
      have htri := (bytesCompare_spec (a0 :: as) (b0 :: bs) hlen ha hb).2.2
      rw [decide_eq_true_eq, htri]
      exact hlt.symm

theorem bufferMatch_signedLT (a b : List Nat) (hlen : a.length = b.length)
    (ha : ∀ x ∈ a, x < 256) (hb : ∀ x ∈ b, x < 256) :
    bufferMatch a b .opSignedLT = true ↔ beInt a < beInt b := by
  match a, b with
  | [], b =>
    have hb0 : b = [] := length_eq_nil (by simpa using hlen.symm)
    subst hb0
    simp [bufferMatch, beInt, beNat]
  | a0 :: as, [] => simp at hlen
  | a0 :: as, b0 :: bs =>
    have ha0 : a0 < 256 := ha a0 (by simp)
    have hb0 : b0 < 256 := hb b0 (by simp)
    have h7a := testBit7_iff ha0
    have h7b := testBit7_iff hb0
    simp only [bufferMatch, List.length_cons, List.headD_cons]
    rw [if_neg (by omega)]
    by_cases hx : 0 < (a0 ^^^ b0) &&& 128
    · rw [if_pos hx]
      have hne : a0.testBit 7 ≠ b0.testBit 7 := (xor_msb_pos_iff _ _).mp hx
      by_cases hma : 128 ≤ a0
      · have hmb : ¬ 128 ≤ b0 := fun hmb => hne (by rw [h7a.mpr hma, h7b.mpr hmb])
        have hA : beInt (a0 :: as) < 0 := beInt_neg (by simpa using hma) ha
        have hB : 0 ≤ beInt (b0 :: bs) := beInt_nonneg (by simp; omega)
        have hland : 0 < a0 &&& 128 := (land128_pos_iff _).mpr (h7a.mpr hma)
        rw [decide_eq_true_eq]
        constructor
        · intro _
          omega
        · intro _
          exact hland
      · have hta : a0.testBit 7 = false := by
          rw [← Bool.not_eq_true, h7a]
          exact hma
        have hmb : 128 ≤ b0 := by
          by_contra hmb
          have htb : b0.testBit 7 = false := by
            rw [← Bool.not_eq_true, h7b]
            exact hmb
          exact hne (hta.trans htb.symm)
        have hA : 0 ≤ beInt (a0 :: as) := beInt_nonneg (by simp; omega)
        have hB : beInt (b0 :: bs) < 0 := beInt_neg (by simpa using hmb) hb
        have hland : a0 &&& 128 = 0 := (land128_eq_zero_iff _).mpr hta
        rw [decide_eq_true_eq]
        constructor
        · intro h
          omega
        · intro h
          exfalso
          omega
    · rw [if_neg hx]
      have hsame : a0.testBit 7 = b0.testBit 7 := by
        by_contra hne
        exact hx ((xor_msb_pos_iff _ _).mpr hne)
      have hmsb : (128 ≤ (a0 :: as).headD 0) ↔ (128 ≤ (b0 :: bs).headD 0) := by
        simp only [List.headD_cons]
        rw [← h7a, ← h7b, hsame]
      have hlt := beInt_lt_iff_of_same_msb hlen hmsb
      have htri := (bytesCompare_spec (a0 :: as) (b0 :: bs) hlen ha hb).1
      rw [decide_eq_true_eq, htri]
      exact hlt.symm

theorem bufferMatch_signedGE (a b : List Nat) (hlen : a.length = b.length)
    (ha : ∀ x ∈ a, x < 256) (hb : ∀ x ∈ b, x < 256) :
    bufferMatch a b .opSignedGE = true ↔ beInt b ≤ beInt a := by
  match a, b with
  | [], b =>
    have hb0 : b = [] := length_eq_nil (by simpa using hlen.symm)
    subst hb0
    simp [bufferMatch, beInt, beNat]
  | a0 :: as, [] => simp at hlen
  | a0 :: as, b0 :: bs =>
    have ha0 : a0 < 256 := ha a0 (by simp)
    have hb0 : b0 < 256 := hb b0 (by simp)
    have h7a := testBit7_iff ha0
    have h7b := testBit7_iff hb0
    simp only [bufferMatch, List.length_cons, List.headD_cons]
    rw [if_neg (by omega)]
    by_cases hx : 0 < (a0 ^^^ b0) &&& 128
    · rw [if_pos hx]
      have hne : a0.testBit 7 ≠ b0.testBit 7 := (xor_msb_pos_iff _ _).mp hx
      by_cases hma : 128 ≤ a0
      · have hmb : ¬ 128 ≤ b0 := fun hmb => hne (by rw [h7a.mpr hma, h7b.mpr hmb])
        have hA : beInt (a0 :: as) < 0 := beInt_neg (by simpa using hma) ha
        have hB : 0 ≤ beInt (b0 :: bs) := beInt_nonneg (by simp; omega)
        have hland : ¬ (a0 &&& 128 = 0) := by
          rw [land128_eq_zero_iff, h7a.mpr hma]
          simp
        simp only [beq_iff_eq]
        constructor
        · intro h
          exact absurd h hland
        · intro h
          exfalso
          omega
      · have hta : a0.testBit 7 = false := by
          rw [← Bool.not_eq_true, h7a]
          exact hma
        have hmb : 128 ≤ b0 := by
          by_contra hmb
          have htb : b0.testBit 7 = false := by
            rw [← Bool.not_eq_true, h7b]
            exact hmb
          exact hne (hta.trans htb.symm)
        have hA : 0 ≤ beInt (a0 :: as) := beInt_nonneg (by simp; omega)
        have hB : beInt (b0 :: bs) < 0 := beInt_neg (by simpa using hmb) hb
        have hland : a0 &&& 128 = 0 := (land128_eq_zero_iff _).mpr hta
        simp only [beq_iff_eq]
        constructor
        · intro _
          omega
        · intro _
          exact hland
    · rw [if_neg hx]
      have hsame : a0.testBit 7 = b0.testBit 7 := by
        by_contra hne
        exact hx ((xor_msb_pos_iff _ _).mpr hne)
      have hmsb : (128 ≤ (a0 :: as).headD 0) ↔ (128 ≤ (b0 :: bs).headD 0) := by
        simp only [List.headD_cons]
        rw [← h7a, ← h7b, hsame]
      have hlt := beInt_lt_iff_of_same_msb hlen hmsb
      have hclt := (bytesCompare_spec (a0 :: as) (b0 :: bs) hlen ha hb).1
      rw [decide_eq_true_eq]
      constructor
      · intro h
        rw [← not_lt, hlt, ← hclt]
        omega
      · intro h
        rw [← not_lt, hlt, ← hclt] at h
        omega

theorem bufferMatch_signedLE (a b : List Nat) (hlen : a.length = b.length)
    (ha : ∀ x ∈ a, x < 256) (hb : ∀ x ∈ b, x < 256) :
    bufferMatch a b .opSignedLE = true ↔ beInt a ≤ beInt b := by
  match a, b with
  | [], b =>
    have hb0 : b = [] := length_eq_nil (by simpa using hlen.symm)
    subst hb0
    simp [bufferMatch, beInt, beNat]
  | a0 :: as, [] => simp at hlen
  | a0 :: as, b0 :: bs =>
    have ha0 : a0 < 256 := ha a0 (by simp)
    have hb0 : b0 < 256 := hb b0 (by simp)
    have h7a := testBit7_iff ha0
    have h7b := testBit7_iff hb0
    simp only [bufferMatch, List.length_cons, List.headD_cons]
    rw [if_neg (by omega)]
    by_cases hx : 0 < (a0 ^^^ b0) &&& 128
    · rw [if_pos hx]
      have hne : a0.testBit 7 ≠ b0.testBit 7 := (xor_msb_pos_iff _ _).mp hx
      by_cases hma : 128 ≤ a0
      · have hmb : ¬ 128 ≤ b0 := fun hmb => hne (by rw [h7a.mpr hma, h7b.mpr hmb])
        have hA : beInt (a0 :: as) < 0 := beInt_neg (by simpa using hma) ha
        have hB : 0 ≤ beInt (b0 :: bs) := beInt_nonneg (by simp; omega)
        have hland : 0 < a0 &&& 128 := (land128_pos_iff _).mpr (h7a.mpr hma)
        rw [decide_eq_true_eq]
        constructor
        · intro _
          omega
        · intro _
          exact hland
      · have hta : a0.testBit 7 = false := by
          rw [← Bool.not_eq_true, h7a]
          exact hma
        have hmb : 128 ≤ b0 := by
          by_contra hmb
          have htb : b0.testBit 7 = false := by
            rw [← Bool.not_eq_true, h7b]
            exact hmb
          exact hne (hta.trans htb.symm)
        have hA : 0 ≤ beInt (a0 :: as) := beInt_nonneg (by simp; omega)
        have hB : beInt (b0 :: bs) < 0 := beInt_neg (by simpa using hmb) hb
        have hland : a0 &&& 128 = 0 := (land128_eq_zero_iff _).mpr hta
        rw [decide_eq_true_eq]
        constructor
        · intro h
          omega
        · intro h
          exfalso
          omega
    · rw [if_neg hx]
      have hsame : a0.testBit 7 = b0.testBit 7 := by
        by_contra hne
        exact hx ((xor_msb_pos_iff _ _).mpr hne)
      have hmsb : (128 ≤ (b0 :: bs).headD 0) ↔ (128 ≤ (a0 :: as).headD 0) := by
        simp only [List.headD_cons]
        rw [← h7a, ← h7b, hsame]
      have hlt := beInt_lt_iff_of_same_msb hlen.symm hmsb
      have hcgt := (bytesCompare_spec (a0 :: as) (b0 :: bs) hlen ha hb).2.2
      rw [decide_eq_true_eq]
      constructor
      · intro h
        rw [← not_lt, hlt, ← hcgt]
        omega
      · intro h
        rw [← not_lt, hlt, ← hcgt] at h
        omega

theorem bufferMatch_bitset (a b : List Nat) (hlen : a.length = b.length) :
    bufferMatch a b .opBitset = true ↔ bitsSubset a b := by
  simp only [bufferMatch]
  rw [zip_all_iff _ a b hlen]
  constructor
  · intro h i k hk
    by_cases hi : i < a.length
    · have hdi := h i hi
      simp only [beq_iff_eq] at hdi
      exact (land_eq_right_iff _ _).mp hdi k hk
    · exfalso
      rw [List.getD_eq_default _ _ (by omega : b.length ≤ i)] at hk
      simp [Nat.zero_testBit] at hk
  · intro h i _
    simp only [beq_iff_eq]
    exact (land_eq_right_iff _ _).mpr fun k hk => h i k hk

theorem bufferMatch_bitclear (a b : List Nat) (hlen : a.length = b.length) :
    bufferMatch a b .opBitclear = true ↔ bitsDisjoint a b := by
  simp only [bufferMatch]
  rw [zip_all_iff _ a b hlen]
  constructor
  · intro h i k
    by_cases hi : i < a.length
    · have hdi := h i hi
      simp only [beq_iff_eq] at hdi
      exact (land_eq_zero_iff _ _).mp hdi k
    · rintro ⟨hx, _⟩
      rw [List.getD_eq_default _ _ (by omega : a.length ≤ i)] at hx
      simp [Nat.zero_testBit] at hx
  · intro h i _
    simp only [beq_iff_eq]
    exact (land_eq_zero_iff _ _).mpr fun k => h i k

/-- C5: for equal-length byte-string operands, `bufferMatch` implements the
TPM2 arithmetic operators exactly: OpEq and OpNeq are byte-wise equality and
inequality; the unsigned comparisons compare the operands as big-endian
unsigned integers; the signed comparisons compare the operands as big-endian
two's-complement signed integers; OpBitset holds iff every bit set in
operandB is also set in operandA; OpBitclear holds iff no bit set in
operandB is set in operandA. -/
theorem bufferMatch_spec (a b : List Nat) (hlen : a.length = b.length)
    (ha : ∀ x ∈ a, x < 256) (hb : ∀ x ∈ b, x < 256) :
    (bufferMatch a b .opEq = true ↔ a = b) ∧
    (bufferMatch a b .opNeq = true ↔ a ≠ b) ∧
    (bufferMatch a b .opUnsignedGT = true ↔ beNat b < beNat a) ∧
    (bufferMatch a b .opUnsignedLT = true ↔ beNat a < beNat b) ∧
    (bufferMatch a b .opUnsignedGE = true ↔ beNat b ≤ beNat a) ∧
    (bufferMatch a b .opUnsignedLE = true ↔ beNat a ≤ beNat b) ∧
    (bufferMatch a b .opSignedGT = true ↔ beInt b < beInt a) ∧
    (bufferMatch a b .opSignedLT = true ↔ beInt a < beInt b) ∧
    (bufferMatch a b .opSignedGE = true ↔ beInt b ≤ beInt a) ∧
    (bufferMatch a b .opSignedLE = true ↔ beInt a ≤ beInt b) ∧
    (bufferMatch a b .opBitset = true ↔ bitsSubset a b) ∧
    (bufferMatch a b .opBitclear = true ↔ bitsDisjoint a b) := by
  obtain ⟨hclt, hceq, hcgt⟩ := bytesCompare_spec a b hlen ha hb
  refine ⟨?_, ?_, ?_, ?_, ?_, ?_, ?_, ?_, ?_, ?_, ?_, ?_⟩
  · simp [bufferMatch]
  · simp [bufferMatch]
  · simp only [bufferMatch, decide_eq_true_eq]
    exact hcgt
  · simp only [bufferMatch, decide_eq_true_eq]
    exact hclt
  · simp only [bufferMatch, decide_eq_true_eq]
    constructor
    · intro h
      rw [← Nat.not_lt, ← hclt]
      omega
    · intro h
      rw [← Nat.not_lt, ← hclt] at h
      omega
  · simp only [bufferMatch, decide_eq_true_eq]
    constructor
    · intro h
      rw [← Nat.not_lt, ← hcgt]
      omega
    · intro h
      rw [← Nat.not_lt, ← hcgt] at h
      omega
  · exact bufferMatch_signedGT a b hlen ha hb
  · exact bufferMatch_signedLT a b hlen ha hb
  · exact bufferMatch_signedGE a b hlen ha hb
  · exact bufferMatch_signedLE a b hlen ha hb
  · exact bufferMatch_bitset a b hlen
  · exact bufferMatch_bitclear a b hlen

theorem bufferMatch_spec_witness :
    ([129, 2] : List Nat).length = ([3, 254] : List Nat).length ∧
    (∀ x ∈ ([129, 2] : List Nat), x < 256) ∧
    (∀ x ∈ ([3, 254] : List Nat), x < 256) ∧
    ((bufferMatch [129, 2] [3, 254] .opEq = true ↔ ([129, 2] : List Nat) = [3, 254]) ∧
    (bufferMatch [129, 2] [3, 254] .opNeq = true ↔ ([129, 2] : List Nat) ≠ [3, 254]) ∧
    (bufferMatch [129, 2] [3, 254] .opUnsignedGT = true ↔ beNat [3, 254] < beNat [129, 2]) ∧
    (bufferMatch [129, 2] [3, 254] .opUnsignedLT = true ↔ beNat [129, 2] < beNat [3, 254]) ∧
    (bufferMatch [129, 2] [3, 254] .opUnsignedGE = true ↔ beNat [3, 254] ≤ beNat [129, 2]) ∧
    (bufferMatch [129, 2] [3, 254] .opUnsignedLE = true ↔ beNat [129, 2] ≤ beNat [3, 254]) ∧
    (bufferMatch [129, 2] [3, 254] .opSignedGT = true ↔ beInt [3, 254] < beInt [129, 2]) ∧
    (bufferMatch [129, 2] [3, 254] .opSignedLT = true ↔ beInt [129, 2] < beInt [3, 254]) ∧
    (bufferMatch [129, 2] [3, 254] .opSignedGE = true ↔ beInt [3, 254] ≤ beInt [129, 2]) ∧
    (bufferMatch [129, 2] [3, 254] .opSignedLE = true ↔ beInt [129, 2] ≤ beInt [3, 254]) ∧
    (bufferMatch [129, 2] [3, 254] .opBitset = true ↔ bitsSubset [129, 2] [3, 254]) ∧
    (bufferMatch [129, 2] [3, 254] .opBitclear = true ↔ bitsDisjoint [129, 2] [3, 254])) :=
  ⟨by decide, by decide, by decide,
    bufferMatch_spec [129, 2] [3, 254] (by decide) (by decide) (by decide)⟩

/-! ### Automatic branch selection: final pick (`selectPath`, branch.go lines 722-763) -/

/-- The fields of `PolicyNVDetails` consulted by the branch selector.  The Go
code keys NV assertions by the SHA-256 hash of the marshalled structure
(`nvAssertionKey`); the key is modelled by the structure itself (marshalling
is injective and the hash is treated as collision-free, as the code assumes). -/
structure PolicyNVDetails where
  index : Nat
  name : List Nat
  operandB : List Nat
  offset : Nat
  operation : ArithmeticOp
deriving DecidableEq, Repr

/-- The fields of `PolicyBranchDetails` consulted by the final pick of
`policyBranchSelector.selectPath`: whether the branch needs an auth value, its
TPM2_PolicySecret and TPM2_PolicySigned authorizations (each identified by
auth name and policy ref), and its TPM2_PolicyNV assertions. -/
structure PolicyBranchDetails where
  authValueNeeded : Bool
  secret : List (List Nat × List Nat)
  signed : List (List Nat × List Nat)
  nv : List PolicyNVDetails
deriving DecidableEq, Repr

/-- The zero value of `PolicyBranchDetails` (what a Go map lookup of a missing
key yields). -/
def policyBranchDetailsZero : PolicyBranchDetails := ⟨false, [], [], []⟩

/-- The candidate list built by the completion callback in `selectPath`
(branch.go lines 723-729): the registered paths, in registration order, that
still have an entry in the details map. -/
def selectPathCandidates (paths : List String)
    (detailsMap : String → Option PolicyBranchDetails) : List String :=
  paths.filter fun p => (detailsMap p).isSome

/-- The per-candidate test of the final-pick loop (branch.go lines 736-761): a
candidate is skipped when it needs an auth value, carries a TPM2_PolicySecret
or TPM2_PolicySigned authorization, or has an NV assertion whose key is not in
`nvOk` (its data could not be confirmed). -/
def branchAutoOk (nvOk : List PolicyNVDetails) (d : PolicyBranchDetails) : Bool :=
  !d.authValueNeeded && d.secret.isEmpty && d.signed.isEmpty &&
    !(d.nv.any fun nv => !(nvOk.contains nv))

/-- The final-pick loop of `selectPath` (branch.go lines 735-761): `acc` is the
current `path` variable, initialised to the first candidate; the first
candidate passing `branchAutoOk` replaces it and the loop breaks. -/
def selectPathLoop (nvOk : List PolicyNVDetails)
    (detailsMap : String → Option PolicyBranchDetails) :
    List String → String → String
  | [], acc => acc
  | c :: rest, acc =>
    if branchAutoOk nvOk ((detailsMap c).getD policyBranchDetailsZero) then c
    else selectPathLoop nvOk detailsMap rest acc

/-- Embeds the completion callback passed to `filterNVIncompatibleBranches` in
`policyBranchSelector.selectPath` (branch.go lines 722-763). -/
def selectPathFinal (paths : List String)
    (detailsMap : String → Option PolicyBranchDetails)
    (nvOk : List PolicyNVDetails) : Except String String :=
  match selectPathCandidates paths detailsMap with
  | [] => .error "cannot select execution path: no appropriate paths found"
  | c0 :: rest => .ok (selectPathLoop nvOk detailsMap (c0 :: rest) c0)

/-- Spec-side preference predicate of C2: the branch needs no auth value, has
no TPM2_PolicySecret or TPM2_PolicySigned authorization, and every NV
assertion's data was confirmed. -/
def branchPreferred (nvOk : List PolicyNVDetails) (d : PolicyBranchDetails) : Prop :=
  d.authValueNeeded = false ∧ d.secret = [] ∧ d.signed = [] ∧ ∀ nv ∈ d.nv, nv ∈ nvOk

theorem branchAutoOk_iff (nvOk : List PolicyNVDetails) (d : PolicyBranchDetails) :
    branchAutoOk nvOk d = true ↔ branchPreferred nvOk d := by
  unfold branchAutoOk branchPreferred
  simp only [Bool.and_eq_true, Bool.not_eq_true', List.isEmpty_iff]
  constructor
  · rintro ⟨⟨⟨h1, h2⟩, h3⟩, h4⟩
    refine ⟨h1, h2, h3, fun nv hnv => ?_⟩
    by_contra hmem
    have hany : (d.nv.any fun nv => !nvOk.contains nv) = true := by
      rw [List.any_eq_true]
      refine ⟨nv, hnv, ?_⟩
      rw [Bool.not_eq_true']
      cases hcc : nvOk.contains nv
      · rfl
      · exact absurd (List.elem_iff.mp hcc) hmem
    rw [hany] at h4
    simp at h4
  · rintro ⟨h1, h2, h3, h4⟩
    refine ⟨⟨⟨h1, h2⟩, h3⟩, ?_⟩
    cases hval : d.nv.any fun nv => !nvOk.contains nv
    · rfl
    · exfalso
      obtain ⟨nv, hnv, hc⟩ := List.any_eq_true.mp hval
      rw [Bool.not_eq_true'] at hc
      have hcont : nvOk.contains nv = true := List.elem_iff.mpr (h4 nv hnv)
      simp [hcont] at hc
      exact hc (h4 nv hnv)

theorem selectPathLoop_eq_find (nvOk : List PolicyNVDetails)
    (detailsMap : String → Option PolicyBranchDetails) :
    ∀ (l : List String) (acc : String),
      selectPathLoop nvOk detailsMap l acc =
        ((l.find? fun c =>
          branchAutoOk nvOk ((detailsMap c).getD policyBranchDetailsZero)).getD acc)
  | [], _ => rfl
  | c :: rest, acc => by
    rw [selectPathLoop, List.find?_cons]
    by_cases h : branchAutoOk nvOk ((detailsMap c).getD policyBranchDetailsZero) = true
    · simp [h]
    · simp only [Bool.not_eq_true] at h
      simp [h, selectPathLoop_eq_find nvOk detailsMap rest acc]

/-- C2: after the filtering pipeline has run, automatic branch selection
considers the remaining candidates in path-registration order; it returns the
first candidate that needs no auth value, has no TPM2_PolicySecret or
TPM2_PolicySigned authorization and has no unconfirmed NV assertion, falling
back to the first remaining candidate when none qualifies; it fails with the
error "cannot select execution path: no appropriate paths found" when the
candidate set is empty. -/
theorem selectPathFinal_spec (paths : List String)
    (detailsMap : String → Option PolicyBranchDetails)
    (nvOk : List PolicyNVDetails) :
    (∀ d, branchAutoOk nvOk d = true ↔ branchPreferred nvOk d) ∧
    (selectPathCandidates paths detailsMap = [] →
      selectPathFinal paths detailsMap nvOk =
        .error "cannot select execution path: no appropriate paths found") ∧
    (∀ c0 rest, selectPathCandidates paths detailsMap = c0 :: rest →
      selectPathFinal paths detailsMap nvOk =
        .ok (((c0 :: rest).find? fun c =>
          branchAutoOk nvOk ((detailsMap c).getD policyBranchDetailsZero)).getD c0)) := by
  refine ⟨branchAutoOk_iff nvOk, ?_, ?_⟩
  · intro h
    rw [selectPathFinal]
    split
    · rfl
    · rename_i c0 rest heq
      rw [h] at heq
      cases heq
  · intro c0 rest h
    rw [selectPathFinal]
    split
    · rename_i heq
      rw [h] at heq
      cases heq
    · rename_i c0' rest' heq
      rw [h] at heq
      cases heq
      rw [selectPathLoop_eq_find]

/-- Concrete details map used to instantiate the C2 theorem. -/
def sampleDetailsMap : String → Option PolicyBranchDetails :=
  fun s =>
    if s = "a" then some ⟨true, [], [], []⟩
    else if s = "b" then some ⟨false, [], [], []⟩
    else none

theorem selectPathFinal_spec_witness :
    selectPathCandidates ["a", "b", "c"] sampleDetailsMap = ["a", "b"] ∧
    selectPathFinal ["a", "b", "c"] sampleDetailsMap [] = .ok "b" := by
  have h := (selectPathFinal_spec ["a", "b", "c"] sampleDetailsMap []).2.2 "a" ["b"]
    (by simp [selectPathCandidates, sampleDetailsMap])
  refine ⟨by simp [selectPathCandidates, sampleDetailsMap], ?_⟩
  rw [h]
  simp [branchAutoOk, sampleDetailsMap, policyBranchDetailsZero]

/-! ### The policy runner's task queue (policy.go lines 1102-1151) -/

/-- The queue state of `policyRunner`: the committed task list `tasks` and the
not-yet-committed prepend list `next`.  Tasks are abstract (`α`). -/
structure RunnerQueue (α : Type) where
  tasks : List α
  next : List α
deriving Repr, DecidableEq

/-- Embeds `policyRunner.runBatchNext` (policy.go lines 1102-1104):
`r.next = append(tasks, r.next...)`. -/
def runBatchNext {α : Type} (q : RunnerQueue α) (batch : List α) : RunnerQueue α :=
  { q with next := batch ++ q.next }

/-- Embeds `policyRunner.runNext` (policy.go lines 1106-1108): a single
deferred task is prepended to `next`. -/
def runNext {α : Type} (q : RunnerQueue α) (t : α) : RunnerQueue α :=
  { q with next := [t] ++ q.next }

/-- Embeds `policyRunner.runElementsNext` (policy.go lines 1110-1119): the
elements are pushed as one batch, followed by the optional completion task. -/
def runElementsNext {α : Type} (q : RunnerQueue α) (elements : List α)
    (done : Option α) : RunnerQueue α :=
  runBatchNext q (elements ++ done.toList)

/-- Embeds `policyRunner.commitNext` (policy.go lines 1121-1127): when `next`
is non-empty it is prepended to `tasks` and cleared. -/
def commitNext {α : Type} (q : RunnerQueue α) : RunnerQueue α :=
  if q.next.isEmpty then q else ⟨q.next ++ q.tasks, []⟩

/-- Embeds `policyRunner.popTask` (policy.go lines 1133-1138) combined with
the `more` guard of the run loop (policy.go lines 1129-1131, 1143-1148):
`none` when both queues are empty, otherwise the task to run and the
remaining queue state. -/
def popTask {α : Type} (q : RunnerQueue α) : Option (α × RunnerQueue α) :=
  match (commitNext q).tasks with
  | [] => none
  | t :: rest => some (t, ⟨rest, (commitNext q).next⟩)

theorem commitNext_spec {α : Type} (q : RunnerQueue α) :
    (commitNext q).tasks = q.next ++ q.tasks ∧ (commitNext q).next = [] := by
  unfold commitNext
  split
  · rename_i h
    rw [List.isEmpty_iff] at h
    simp [h]
  · simp

theorem popTask_size {α : Type} {q : RunnerQueue α} {t : α} {q' : RunnerQueue α}
    (h : popTask q = some (t, q')) :
    q'.tasks.length + q'.next.length + 1 = q.tasks.length + q.next.length := by
  obtain ⟨hc1, hc2⟩ := commitNext_spec q
  rw [popTask] at h
  split at h
  · cases h
  · rename_i t0 rest heq
    cases h
    have : (q.next ++ q.tasks).length = rest.length + 1 := by
      rw [← hc1, heq]
      simp
    simp only [List.length_append] at this
    simp [hc2]
    omega

/-- The order in which the run loop (policy.go lines 1143-1148) executes the
currently queued tasks, assuming the tasks themselves push nothing further;
the fuel argument is bounded by the queue size, which `popTask` strictly
decreases, so the loop drains the queue exactly. -/
def popAllFuel {α : Type} : Nat → RunnerQueue α → List α
  | 0, _ => []
  | fuel + 1, q =>
    match popTask q with
    | none => []
    | some (t, q2) => t :: popAllFuel fuel q2

/-- The sequence of tasks the run loop pops from a queue state, in execution
order, when no task pushes anything further. -/
def popAll {α : Type} (q : RunnerQueue α) : List α :=
  popAllFuel (q.tasks.length + q.next.length) q

theorem popTask_of_append_nil {α : Type} {q : RunnerQueue α}
    (h : q.next ++ q.tasks = []) : popTask q = none := by
  obtain ⟨hc1, hc2⟩ := commitNext_spec q
  unfold popTask
  rw [hc1, h]

theorem popTask_of_append_cons {α : Type} {q : RunnerQueue α} {t : α} {rest : List α}
    (h : q.next ++ q.tasks = t :: rest) : popTask q = some (t, ⟨rest, []⟩) := by
  obtain ⟨hc1, hc2⟩ := commitNext_spec q
  unfold popTask
  rw [hc1, hc2, h]

theorem popAllFuel_eq {α : Type} :
    ∀ (fuel : Nat) (q : RunnerQueue α), q.tasks.length + q.next.length ≤ fuel →
      popAllFuel fuel q = q.next ++ q.tasks := by
  intro fuel
  induction fuel with
  | zero =>
    intro q hq
    have h1 : q.tasks = [] := by
      cases hz : q.tasks
      · rfl
      · rw [hz] at hq
        simp at hq
    have h2 : q.next = [] := by
      cases hz : q.next
      · rfl
      · rw [hz] at hq
        simp at hq
    simp [popAllFuel, h1, h2]
  | succ fuel ih =>
    intro q hq
    cases hq2 : q.next ++ q.tasks with
    | nil =>
      have hp := popTask_of_append_nil hq2
      unfold popAllFuel
      rw [hp]
    | cons t rest =>
      have hp := popTask_of_append_cons hq2
      have hlen : (q.next ++ q.tasks).length = rest.length + 1 := by
        rw [hq2]
        simp
      simp only [List.length_append] at hlen
      have hrec := ih ⟨rest, []⟩ (by simp; omega)
      unfold popAllFuel
      rw [hp]
      simp [hrec]

theorem popAll_eq {α : Type} (q : RunnerQueue α) : popAll q = q.next ++ q.tasks :=
  popAllFuel_eq _ q (by omega)

/-- C9: tasks execute strictly sequentially in queue order (pending prepends
first, then the committed tasks); every task pushed by the currently running
task via `runNext`, `runBatchNext` or `runElementsNext` executes before any
task that was already queued when the current task started (the state `q` is
the queue left after the current task was popped); and a batch pushed
together executes as a contiguous block in its batch order. -/
theorem runnerQueue_ordering {α : Type} (q : RunnerQueue α) (batch elements : List α)
    (t done : α) :
    popAll q = q.next ++ q.tasks ∧
    popAll (runBatchNext q batch) = batch ++ (q.next ++ q.tasks) ∧
    popAll (runNext q t) = t :: (q.next ++ q.tasks) ∧
    popAll (runElementsNext q elements (some done)) =
      elements ++ [done] ++ (q.next ++ q.tasks) ∧
    popAll (runElementsNext q elements none) = elements ++ (q.next ++ q.tasks) := by
  refine ⟨popAll_eq q, ?_, ?_, ?_, ?_⟩
  · rw [popAll_eq]
    simp [runBatchNext]
  · rw [popAll_eq]
    simp [runNext]
  · rw [popAll_eq]
    simp [runElementsNext, runBatchNext]
  · rw [popAll_eq]
    simp [runElementsNext, runBatchNext]

/-! ### Tickets and the TPM2_PolicySecret / TPM2_PolicySigned assertions
(policy.go lines 34-42, 480-609, 1087-1100, 1210-1219) -/

/-- TPM_RH_NULL (`tpm2.HandleNull`). -/
def handleNull : Nat := 0x40000007

/-- The `tpm2.TkAuth` ticket structure (types_structures.go lines 355-362). -/
structure TkAuth where
  tag : Nat
  hierarchy : Nat
  digest : List Nat
deriving DecidableEq, Repr

/-- The `PolicyTicket` structure (policy.go lines 48-57). -/
structure PolicyTicket where
  authName : List Nat
  policyRef : List Nat
  cpHash : List Nat
  timeout : List Nat
  ticket : Option TkAuth
deriving DecidableEq, Repr

/-- Embeds `policyParamKey` (policy.go lines 34-42): the SHA-256 digest of the
auth name concatenated with the policy ref; modelled by the concatenation
itself (the code relies on the hash being collision-free). -/
def policyParamKey (authName policyRef : List Nat) : List Nat :=
  authName ++ policyRef

/-- The runner's ticket map, a Go `map[paramKey]*PolicyTicket` modelled as an
association list with unique keys. -/
abbrev TicketMap := List (List Nat × PolicyTicket)

/-- Go map lookup. -/
def mapLookup (m : TicketMap) (k : List Nat) : Option PolicyTicket :=
  (m.find? fun e => e.1 == k).map fun e => e.2

/-- Go map assignment: any existing entry under the key is replaced. -/
def mapInsert (m : TicketMap) (k : List Nat) (v : PolicyTicket) : TicketMap :=
  (m.filter fun e => !(e.1 == k)) ++ [(k, v)]

/-- The null-ticket test of `policyRunner.addTicket` (policy.go line 1095):
the ticket pointer is nil, or the ticket has the null hierarchy handle and an
empty digest. -/
def ticketIsNull (t : PolicyTicket) : Bool :=
  match t.ticket with
  | none => true
  | some tk => tk.hierarchy == handleNull && tk.digest == []

/-- Embeds `policyRunner.addTicket` (policy.go lines 1094-1100): null tickets
are silently dropped; anything else is stored under
`policyParamKey(AuthName, PolicyRef)`, overwriting a previous entry. -/
def addTicket (m : TicketMap) (t : PolicyTicket) : TicketMap :=
  if ticketIsNull t then m
  else mapInsert m (policyParamKey t.authName t.policyRef) t

/-- The ticket map accumulated by a run that called `addTicket` on the given
tickets in order, starting from the empty map created by
`newPolicyRunnerContext` (policy.go line 1061). -/
def runTickets (ts : List PolicyTicket) : TicketMap :=
  ts.foldl addTicket []

/-- The ticket list returned by `Policy.Execute` (policy.go lines 1214-1217):
the values of the runner's ticket map. -/
def executeTicketList (ts : List PolicyTicket) : List PolicyTicket :=
  (runTickets ts).map fun e => e.2

/-- Go errors, as far as the policy runner inspects them: a TPM parameter
error carrying an error code, a command code and a parameter index
(recognised through `tpm2.IsTPMParameterError`), or anything else. -/
inductive GoError where
  | tpmParam (code : Nat) (command : Nat) (index : Nat)
  | simple (msg : String)
deriving DecidableEq, Repr

/-- TPM_RC_EXPIRED (`tpm2.ErrorExpired`). -/
def errorExpired : Nat := 0x23

/-- TPM_RC_TICKET (`tpm2.ErrorTicket`). -/
def errorTicket : Nat := 0x29

/-- TPM_CC_PolicyTicket (`tpm2.CommandPolicyTicket`). -/
def commandPolicyTicket : Nat := 0x185

/-- Embeds `tpm2.IsTPMParameterError(err, code, command, index)` for a
non-nil error. -/
def isTPMParameterError (e : GoError) (code command index : Nat) : Bool :=
  match e with
  | .tpmParam c m i => c == code && m == command && i == index
  | .simple _ => false

/-- The errors `policySecret.run` and `policySigned.run` can return:
`AuthorizationError` carrying the assertion's auth name and policy ref,
`ResourceLoadError` carrying the resource name, or a wrapped error from a
helper step. -/
inductive PolicyError where
  | authorizationError (authName : List Nat) (policyRef : List Nat) (err : GoError)
  | resourceLoadError (name : List Nat) (err : GoError)
  | wrapped (msg : String) (err : GoError)
deriving DecidableEq, Repr

/-- How a TPM2_PolicySecret / TPM2_PolicySigned assertion completed: either a
registered ticket was accepted by TPM2_PolicyTicket, or a fresh assertion was
issued and `addTicket` was called with the given ticket. -/
inductive AssertOutcome where
  | ticketAccepted
  | freshIssued (t : PolicyTicket)
deriving DecidableEq, Repr

/-- The caller-supplied parameters for a TPM2_PolicySecret assertion, as far
as `policySecret.run` consults them: the optional cpHash computation's result
and the expiration. -/
structure SecretParams where
  cpHash : Option (Except GoError (List Nat))
  expiration : Int

/-- Embeds `policySecret.run` (policy.go lines 487-552).  The TPM and
resource-loader interactions are oracle arguments: `policyTicketResult` is
the outcome of `session.PolicyTicket` (consulted only when a ticket is
registered for the assertion), `loadNameResult` of `resources.LoadName`,
`needAuthorizeResult` of `resources.NeedAuthorize`, and
`policySecretResult` of `session.PolicySecret` (timeout and optional
ticket). -/
def policySecretFresh (authObjectName policyRef : List Nat)
    (params : Option SecretParams)
    (loadNameResult : Option GoError)
    (needAuthorizeResult : Option GoError)
    (policySecretResult : Except GoError (List Nat × Option TkAuth)) :
    Except PolicyError AssertOutcome :=
  -- the non-ticket path of policySecret.run (policy.go lines 503-551)
  let p := params.getD ⟨none, 0⟩
  match p.cpHash with
  | some (.error e) => .error (.wrapped "cannot obtain cpHashA" e)
  | _ =>
    let cpHashA : List Nat :=
      match p.cpHash with
      | some (.ok d) => d
      | _ => []
    match loadNameResult with
    | some e => .error (.resourceLoadError authObjectName e)
    | none =>
      match needAuthorizeResult with
      | some e => .error (.authorizationError authObjectName policyRef e)
      | none =>
        match policySecretResult with
        | .error e => .error (.authorizationError authObjectName policyRef e)
        | .ok (timeout, tk) =>
          .ok (.freshIssued ⟨authObjectName, policyRef, cpHashA, timeout, tk⟩)

/-- The ticket-first control flow of `policySecret.run` (policy.go lines
488-501): a registered ticket is presented via TPM2_PolicyTicket; an
expired-ticket or invalid-ticket parameter error makes the run fall through
to the fresh-assertion path; success completes the assertion; any other
error becomes an `AuthorizationError`. -/
def policySecretRun (authObjectName policyRef : List Nat)
    (ticket : Option PolicyTicket)
    (policyTicketResult : Option GoError)
    (params : Option SecretParams)
    (loadNameResult : Option GoError)
    (needAuthorizeResult : Option GoError)
    (policySecretResult : Except GoError (List Nat × Option TkAuth)) :
    Except PolicyError AssertOutcome :=
  match ticket with
  | some _ =>
    match policyTicketResult with
    | some err =>
      if isTPMParameterError err errorExpired commandPolicyTicket 1 then
        policySecretFresh authObjectName policyRef params loadNameResult
          needAuthorizeResult policySecretResult
      else if isTPMParameterError err errorTicket commandPolicyTicket 5 then
        policySecretFresh authObjectName policyRef params loadNameResult
          needAuthorizeResult policySecretResult
      else .error (.authorizationError authObjectName policyRef err)
    | none => .ok .ticketAccepted
  | none =>
    policySecretFresh authObjectName policyRef params loadNameResult
      needAuthorizeResult policySecretResult

/-- The caller-supplied signed authorization, as far as `policySigned.run`
consults it: the session nonce, the bound cpHash, the expiration, and the
name of the signing key (`authKey.Resource().Name()`). -/
structure SignedAuthorization where
  nonceTPM : List Nat
  cpHash : List Nat
  expiration : Int
  authKeyName : List Nat
deriving DecidableEq, Repr

/-- Embeds `policySigned.run` (policy.go lines 561-609), with the TPM and
resource-loader interactions as oracle arguments as in `policySecretRun`;
`auth` is the caller-supplied signed authorization matching
(authKeyName, policyRef), or `none`. -/
def policySignedFresh (authKeyName policyRef : List Nat)
    (auth : Option SignedAuthorization)
    (loadExternalResult : Option GoError)
    (policySignedResult : Except GoError (List Nat × Option TkAuth)) :
    Except PolicyError AssertOutcome :=
  -- the non-ticket path of policySigned.run (policy.go lines 577-608)
  match auth with
  | none =>
    .error (.authorizationError authKeyName policyRef
      (.simple "missing signed authorization"))
  | some a =>
    match loadExternalResult with
    | some e => .error (.wrapped "cannot create authKey context" e)
    | none =>
      match policySignedResult with
      | .error e => .error (.authorizationError authKeyName policyRef e)
      | .ok (timeout, tk) =>
        .ok (.freshIssued ⟨a.authKeyName, policyRef, a.cpHash, timeout, tk⟩)

/-- The ticket-first control flow of `policySigned.run` (policy.go lines
562-575), mirroring `policySecretRun`. -/
def policySignedRun (authKeyName policyRef : List Nat)
    (ticket : Option PolicyTicket)
    (policyTicketResult : Option GoError)
    (auth : Option SignedAuthorization)
    (loadExternalResult : Option GoError)
    (policySignedResult : Except GoError (List Nat × Option TkAuth)) :
    Except PolicyError AssertOutcome :=
  match ticket with
  | some _ =>
    match policyTicketResult with
    | some err =>
      if isTPMParameterError err errorExpired commandPolicyTicket 1 then
        policySignedFresh authKeyName policyRef auth loadExternalResult policySignedResult
      else if isTPMParameterError err errorTicket commandPolicyTicket 5 then
        policySignedFresh authKeyName policyRef auth loadExternalResult policySignedResult
      else .error (.authorizationError authKeyName policyRef err)
    | none => .ok .ticketAccepted
  | none =>
    policySignedFresh authKeyName policyRef auth loadExternalResult policySignedResult

/-- C3: when a ticket is registered for a TPM2_PolicySecret or
TPM2_PolicySigned assertion and the TPM rejects the TPM2_PolicyTicket call
with the expired-ticket (parameter 1) or invalid-ticket (parameter 5) error,
the error is not propagated: the run is the same as one with no ticket,
i.e. it falls through to issuing the fresh assertion; if TPM2_PolicyTicket
succeeds the assertion completes without the fresh assertion; any other
TPM2_PolicyTicket error is propagated as an AuthorizationError. -/
theorem policyTicket_flow (authName policyRef : List Nat) (tk : PolicyTicket)
    (err : GoError) (params : Option SecretParams) (lnr nar : Option GoError)
    (psr : Except GoError (List Nat × Option TkAuth))
    (auth : Option SignedAuthorization) (ler : Option GoError)
    (pgr : Except GoError (List Nat × Option TkAuth)) :
    (isTPMParameterError err errorExpired commandPolicyTicket 1 = true →
      policySecretRun authName policyRef (some tk) (some err) params lnr nar psr =
        policySecretRun authName policyRef none (some err) params lnr nar psr) ∧
    (isTPMParameterError err errorTicket commandPolicyTicket 5 = true →
      policySecretRun authName policyRef (some tk) (some err) params lnr nar psr =
        policySecretRun authName policyRef none (some err) params lnr nar psr) ∧
    (policySecretRun authName policyRef (some tk) none params lnr nar psr =
      .ok .ticketAccepted) ∧
    (isTPMParameterError err errorExpired commandPolicyTicket 1 = false →
      isTPMParameterError err errorTicket commandPolicyTicket 5 = false →
      policySecretRun authName policyRef (some tk) (some err) params lnr nar psr =
        .error (.authorizationError authName policyRef err)) ∧
    (isTPMParameterError err errorExpired commandPolicyTicket 1 = true →
      policySignedRun authName policyRef (some tk) (some err) auth ler pgr =
        policySignedRun authName policyRef none (some err) auth ler pgr) ∧
    (isTPMParameterError err errorTicket commandPolicyTicket 5 = true →
      policySignedRun authName policyRef (some tk) (some err) auth ler pgr =
        policySignedRun authName policyRef none (some err) auth ler pgr) ∧
    (policySignedRun authName policyRef (some tk) none auth ler pgr =
      .ok .ticketAccepted) ∧
    (isTPMParameterError err errorExpired commandPolicyTicket 1 = false →
      isTPMParameterError err errorTicket commandPolicyTicket 5 = false →
      policySignedRun authName policyRef (some tk) (some err) auth ler pgr =
        .error (.authorizationError authName policyRef err)) := by
  refine ⟨?_, ?_, ?_, ?_, ?_, ?_, ?_, ?_⟩
  · intro h
    simp [policySecretRun, h]
  · intro h
    simp [policySecretRun, h]
  · simp [policySecretRun]
  · intro h1 h2
    simp [policySecretRun, h1, h2]
  · intro h
    simp [policySignedRun, h]
  · intro h
    simp [policySignedRun, h]
  · simp [policySignedRun]
  · intro h1 h2
    simp [policySignedRun, h1, h2]

theorem policyTicket_flow_witness :
    (isTPMParameterError (.tpmParam errorExpired commandPolicyTicket 1)
      errorExpired commandPolicyTicket 1 = true) ∧
    policySecretRun [1] [2] (some ⟨[1], [2], [], [], none⟩)
        (some (.tpmParam errorExpired commandPolicyTicket 1)) none none none
        (.ok ([], none)) =
      policySecretRun [1] [2] none
        (some (.tpmParam errorExpired commandPolicyTicket 1)) none none none
        (.ok ([], none)) :=
  ⟨by decide,
    (policyTicket_flow [1] [2] ⟨[1], [2], [], [], none⟩
      (.tpmParam errorExpired commandPolicyTicket 1) none none none
      (.ok ([], none)) none none (.ok ([], none))).1 (by decide)⟩

/-- C8: a TPM2_PolicySigned assertion with no registered ticket and no
matching caller-supplied signed authorization fails with an
AuthorizationError carrying the assertion's auth key name and policy
reference, wrapping the distinct "missing signed authorization" error. -/
theorem policySigned_missing_authorization (authKeyName policyRef : List Nat)
    (ptr ler : Option GoError)
    (pgr : Except GoError (List Nat × Option TkAuth)) :
    policySignedRun authKeyName policyRef none ptr none ler pgr =
      .error (.authorizationError authKeyName policyRef
        (.simple "missing signed authorization")) := by
  simp [policySignedRun, policySignedFresh]

theorem find?_filter_of_imp {α : Type} (p q : α → Bool)
    (h : ∀ x, p x = true → q x = true) :
    ∀ l : List α, (l.filter q).find? p = l.find? p
  | [] => rfl
  | e :: es => by
    cases hq : q e
    · have hp : p e = false := by
        cases hp : p e
        · rfl
        · rw [h e hp] at hq
          cases hq
      rw [List.filter_cons_of_neg (by simp [hq]),
        List.find?_cons_of_neg _ (by simp [hp])]
      exact find?_filter_of_imp p q h es
    · rw [List.filter_cons_of_pos hq]
      cases hp : p e
      · rw [List.find?_cons_of_neg _ (by simp [hp]),
          List.find?_cons_of_neg _ (by simp [hp])]
        exact find?_filter_of_imp p q h es
      · rw [List.find?_cons_of_pos _ hp, List.find?_cons_of_pos _ hp]

theorem mapLookup_insert_self (m : TicketMap) (k : List Nat) (v : PolicyTicket) :
    mapLookup (mapInsert m k v) k = some v := by
  unfold mapLookup mapInsert
  have hnone : ((m.filter fun e => !(e.1 == k)).find? fun e => e.1 == k) = none := by
    rw [List.find?_eq_none]
    intro e he
    have := List.of_mem_filter he
    simp at this
    simp [this]
  rw [List.find?_append, hnone]
  simp

theorem mapLookup_insert_other (m : TicketMap) (k : List Nat) (v : PolicyTicket)
    (k2 : List Nat) (h : k2 ≠ k) :
    mapLookup (mapInsert m k v) k2 = mapLookup m k2 := by
  unfold mapLookup mapInsert
  rw [List.find?_append]
  rw [find?_filter_of_imp (fun e => e.1 == k2) (fun e => !(e.1 == k))
    (fun x hx => by
      simp only [beq_iff_eq] at hx
      simp [hx, h]) m]
  have hsingle : (List.find? (fun e => e.1 == k2) [(k, v)]) = none := by
    rw [List.find?_cons_of_neg _ (by simp only [beq_iff_eq]; exact Ne.symm h)]
    rfl
  rw [hsingle]
  cases m.find? fun e => e.1 == k2 <;> simp [Option.or]

theorem getLast?_cons_or {α : Type} : ∀ (a : α) (l : List α),
    (a :: l).getLast? = l.getLast?.or (some a)
  | _, [] => rfl
  | a, b :: t => by
    rw [List.getLast?_cons_cons, getLast?_cons_or b t]
    cases t.getLast? <;> simp [Option.or]

theorem foldl_addTicket_lookup :
    ∀ (ts : List PolicyTicket) (m : TicketMap) (k : List Nat),
      mapLookup (ts.foldl addTicket m) k =
        ((ts.filter fun t => !ticketIsNull t &&
          (policyParamKey t.authName t.policyRef == k)).getLast?).or (mapLookup m k)
  | [], m, k => by simp [Option.or]
  | t :: ts, m, k => by
    rw [List.foldl_cons, foldl_addTicket_lookup ts (addTicket m t) k]
    by_cases hnull : ticketIsNull t = true
    · rw [List.filter_cons_of_neg (by simp [hnull])]
      rw [addTicket, if_pos hnull]
    · rw [addTicket, if_neg hnull]
      simp only [Bool.not_eq_true] at hnull
      by_cases hk : policyParamKey t.authName t.policyRef = k
      · rw [List.filter_cons_of_pos (by simp [hnull, hk])]
        rw [hk, mapLookup_insert_self, getLast?_cons_or]
        cases hfl : ((ts.filter fun t => !ticketIsNull t &&
            (policyParamKey t.authName t.policyRef == k)).getLast?) <;>
          simp [Option.or]
      · rw [List.filter_cons_of_neg (by simp [hnull, hk])]
        rw [mapLookup_insert_other _ _ _ _ (fun hc => hk hc.symm)]

theorem mapInsert_keys_nodup (m : TicketMap) (k : List Nat) (v : PolicyTicket)
    (h : (m.map Prod.fst).Nodup) : ((mapInsert m k v).map Prod.fst).Nodup := by
  unfold mapInsert
  rw [List.map_append]
  apply List.Nodup.append
  · exact ((List.filter_sublist m).map Prod.fst).nodup h
  · exact List.nodup_singleton _
  · intro x hx hk
    simp at hk
    subst hk
    obtain ⟨e, he, hfst⟩ := List.mem_map.mp hx
    have := List.of_mem_filter he
    simp at this
    exact this (hfst ▸ rfl)

theorem foldl_addTicket_keys_nodup :
    ∀ (ts : List PolicyTicket) (m : TicketMap),
      (m.map Prod.fst).Nodup → (((ts.foldl addTicket m)).map Prod.fst).Nodup
  | [], _, h => h
  | t :: ts, m, h => by
    rw [List.foldl_cons]
    apply foldl_addTicket_keys_nodup ts
    rw [addTicket]
    split
    · exact h
    · exact mapInsert_keys_nodup m _ t h

theorem foldl_addTicket_no_null :
    ∀ (ts : List PolicyTicket) (m : TicketMap),
      (∀ e ∈ m, ticketIsNull e.2 = false) →
      ∀ e ∈ ts.foldl addTicket m, ticketIsNull e.2 = false
  | [], _, h => h
  | t :: ts, m, h => by
    rw [List.foldl_cons]
    apply foldl_addTicket_no_null ts
    rw [addTicket]
    split
    · exact h
    · rename_i hnull
      simp only [Bool.not_eq_true] at hnull
      intro e he
      unfold mapInsert at he
      rcases List.mem_append.mp he with he | he
      · exact h e (List.mem_of_mem_filter he)
      · simp only [List.mem_singleton] at he
        rw [he]
        exact hnull

theorem policySecretFresh_fields {authName policyRef : List Nat}
    {params : Option SecretParams} {lnr nar : Option GoError}
    {psr : Except GoError (List Nat × Option TkAuth)} {t2 : PolicyTicket}
    (h : policySecretFresh authName policyRef params lnr nar psr =
      .ok (.freshIssued t2)) :
    t2.authName = authName ∧ t2.policyRef = policyRef := by
  simp only [policySecretFresh] at h
  split at h
  · cases h
  · split at h
    · cases h
    · split at h
      · cases h
      · split at h
        · cases h
        · cases h
          exact ⟨rfl, rfl⟩

theorem policySecretRun_fresh_fields {authName policyRef : List Nat}
    {tkopt : Option PolicyTicket} {ptr : Option GoError}
    {params : Option SecretParams} {lnr nar : Option GoError}
    {psr : Except GoError (List Nat × Option TkAuth)} {t2 : PolicyTicket}
    (h : policySecretRun authName policyRef tkopt ptr params lnr nar psr =
      .ok (.freshIssued t2)) :
    t2.authName = authName ∧ t2.policyRef = policyRef := by
  unfold policySecretRun at h
  split at h
  · split at h
    · split at h
      · exact policySecretFresh_fields h
      · split at h
        · exact policySecretFresh_fields h
        · cases h
    · simp at h
  · exact policySecretFresh_fields h

theorem policySignedFresh_fields {authKeyName policyRef : List Nat}
    {a : SignedAuthorization} {ler : Option GoError}
    {pgr : Except GoError (List Nat × Option TkAuth)} {t2 : PolicyTicket}
    (h : policySignedFresh authKeyName policyRef (some a) ler pgr =
      .ok (.freshIssued t2)) :
    t2.authName = a.authKeyName ∧ t2.policyRef = policyRef := by
  simp only [policySignedFresh] at h
  split at h
  · cases h
  · split at h
    · cases h
    · cases h
      exact ⟨rfl, rfl⟩

theorem policySignedRun_fresh_fields {authKeyName policyRef : List Nat}
    {tkopt : Option PolicyTicket} {ptr : Option GoError}
    {a : SignedAuthorization} {ler : Option GoError}
    {pgr : Except GoError (List Nat × Option TkAuth)} {t2 : PolicyTicket}
    (h : policySignedRun authKeyName policyRef tkopt ptr (some a) ler pgr =
      .ok (.freshIssued t2)) :
    t2.authName = a.authKeyName ∧ t2.policyRef = policyRef := by
  unfold policySignedRun at h
  split at h
  · split at h
    · split at h
      · exact policySignedFresh_fields h
      · split at h
        · exact policySignedFresh_fields h
        · cases h
    · simp at h
  · exact policySignedFresh_fields h

/-- C7: a successful TPM2_PolicySecret or TPM2_PolicySigned assertion
registers its non-null ticket keyed by (authName, policyRef): the fresh
tickets carry the assertion's auth name (for TPM2_PolicySigned, the supplied
auth key's name) and policy ref, `addTicket` overwrites any prior entry under
the same key, the ticket map never holds two entries with one key, and the
entry for a key is the most recently added non-null ticket with that key. -/
theorem ticket_registration (m : TicketMap) (t : PolicyTicket)
    (ts : List PolicyTicket) (k : List Nat) (authName policyRef : List Nat)
    (tkopt : Option PolicyTicket) (ptr : Option GoError)
    (params : Option SecretParams) (lnr nar : Option GoError)
    (psr : Except GoError (List Nat × Option TkAuth))
    (a : SignedAuthorization) (ler : Option GoError)
    (pgr : Except GoError (List Nat × Option TkAuth)) :
    (∀ t2, policySecretRun authName policyRef tkopt ptr params lnr nar psr =
      .ok (.freshIssued t2) → t2.authName = authName ∧ t2.policyRef = policyRef) ∧
    (∀ t2, policySignedRun authName policyRef tkopt ptr (some a) ler pgr =
      .ok (.freshIssued t2) →
      t2.authName = a.authKeyName ∧ t2.policyRef = policyRef) ∧
    (ticketIsNull t = false →
      mapLookup (addTicket m t) (policyParamKey t.authName t.policyRef) = some t) ∧
    ((runTickets ts).map Prod.fst).Nodup ∧
    mapLookup (runTickets ts) k =
      (ts.filter fun t2 => !ticketIsNull t2 &&
        (policyParamKey t2.authName t2.policyRef == k)).getLast? := by
  refine ⟨fun t2 h => policySecretRun_fresh_fields h,
    fun t2 h => policySignedRun_fresh_fields h, ?_, ?_, ?_⟩
  · intro hnull
    rw [addTicket, if_neg (by simp [hnull])]
    exact mapLookup_insert_self m _ t
  · exact foldl_addTicket_keys_nodup ts [] (by simp)
  · rw [runTickets, foldl_addTicket_lookup ts [] k]
    have hnil : mapLookup [] k = none := rfl
    rw [hnil]
    cases (ts.filter fun t2 => !ticketIsNull t2 &&
      (policyParamKey t2.authName t2.policyRef == k)).getLast? <;> simp [Option.or]

/-- A concrete non-null ticket used to instantiate the ticket theorems. -/
def sampleTicket : PolicyTicket := ⟨[1], [2], [3], [4], some ⟨0x8025, 0x40000001, [7]⟩⟩

theorem ticket_registration_witness :
    ticketIsNull sampleTicket = false ∧
    mapLookup (addTicket [] sampleTicket)
      (policyParamKey sampleTicket.authName sampleTicket.policyRef) =
        some sampleTicket :=
  ⟨by decide,
    (ticket_registration [] sampleTicket [] [] [1] [2] none none none none none
      (.ok ([], none)) ⟨[], [], 0, []⟩ none (.ok ([], none))).2.2.1 (by decide)⟩

/-- C10: the ticket list returned by `Policy.Execute` never contains a null
ticket: every returned `PolicyTicket` has a non-nil `Ticket` field that is
not the null ticket (null hierarchy handle with an empty digest), because
`addTicket` silently drops such tickets. -/
theorem executeTicketList_no_null (ts : List PolicyTicket) :
    ∀ t ∈ executeTicketList ts, t.ticket ≠ none ∧
      ∀ tk, t.ticket = some tk → ¬(tk.hierarchy = handleNull ∧ tk.digest = []) := by
  intro t ht
  have h : ticketIsNull t = false := by
    unfold executeTicketList at ht
    obtain ⟨e, he, hfst⟩ := List.mem_map.mp ht
    rw [← hfst]
    exact foldl_addTicket_no_null ts [] (by simp) e he
  unfold ticketIsNull at h
  constructor
  · intro hnone
    rw [hnone] at h
    cases h
  · rintro tk htk ⟨h1, h2⟩
    rw [htk] at h
    simp [h1, h2] at h

theorem executeTicketList_no_null_witness :
    sampleTicket ∈ executeTicketList [sampleTicket] ∧
    (sampleTicket.ticket ≠ none ∧ ∀ tk, sampleTicket.ticket = some tk →
      ¬(tk.hierarchy = handleNull ∧ tk.digest = [])) :=
  ⟨by decide, executeTicketList_no_null [sampleTicket] sampleTicket (by decide)⟩

/-! ### Policy validation (policy.go lines 1222-1303) -/

mutual
/-- A policy element as `Policy.Validate` sees it: either a plain assertion
(identified abstractly; its compute-session digest update is the parameter
`f` below) or a branch node with sub-branches (`policyBranchNode`,
policy.go lines 691-699). -/
inductive PolicyElement where
  | assertion (id : Nat)
  | branchNode (branches : List PolicyBranch)

/-- A `policyBranch` (policy.go lines 683-687): a name, the pre-stored
per-algorithm digests (`PolicyDigests`), and the branch's elements. -/
inductive PolicyBranch where
  | mk (name : String) (storedDigests : List (Nat × Digest))
      (elements : List PolicyElement)
end

/-- The stored digest list of a branch. -/
def PolicyBranch.storedDigests : PolicyBranch → List (Nat × Digest)
  | .mk _ s _ => s

/-- The element list of a branch. -/
def PolicyBranch.elements : PolicyBranch → List PolicyElement
  | .mk _ _ e => e

/-- Validation errors.  `mismatch` is the "stored and computed branch digest
mismatch (computed: %x, stored: %x)" error of
`validatePolicyFlowHandler.handleBranches` (policy.go line 1247), carrying
both digests; `assertionError` stands for an error from running an assertion
on the compute session (e.g. `ErrMissingDigest`); `treeError` wraps a
`newPolicyOrTree` failure (policy.go line 821). -/
inductive ValidateError where
  | mismatch (computed stored : Digest)
  | assertionError (msg : String)
  | treeError (msg : String)
deriving DecidableEq, Repr

/-- The inner comparison loop of `validatePolicyFlowHandler.handleBranches`
(policy.go lines 1241-1249) for one branch: every stored digest whose
algorithm is the session algorithm must equal the recomputed digest. -/
def checkBranchStored (alg : Nat) (stored : List (Nat × Digest))
    (computed : Digest) : Except ValidateError Unit :=
  match stored with
  | [] => .ok ()
  | (a, dg) :: rest =>
    if a = alg then
      if dg = computed then checkBranchStored alg rest computed
      else .error (.mismatch computed dg)
    else checkBranchStored alg rest computed

/-- The outer comparison loop of `validatePolicyFlowHandler.handleBranches`
(policy.go lines 1239-1250): branch `i` is compared against computed digest
`i`. -/
def checkStoredDigests (alg : Nat) :
    List PolicyBranch → List Digest → Except ValidateError Unit
  | [], _ => .ok ()
  | _ :: _, [] => .ok ()
  | b :: bs, c :: cs =>
    match checkBranchStored alg b.storedDigests c with
    | .error e => .error e
    | .ok () => checkStoredDigests alg bs cs

mutual
/-- Runs one element on the validating compute session.  `f` is the
compute session's digest update rule for plain assertions (modelled from the
spec: the compute session implementation is not among the provided sources);
`alg` the session algorithm; `H` the hash primitive for the PolicyOR tree.
A branch node recomputes every branch's digest from the current digest
(`computeBranchDigests`, policy.go lines 756-770, each branch starting from
the current session digest), compares the stored digests, then replays the
TPM2_PolicyOR assertions selected by `completeBranchNode` for branch index 0
(policy.go lines 818-825).  A branch node with no branches queues no digest
tasks and its completion callback never runs, so it leaves the digest
unchanged. -/
def validateElem (f : Nat → Digest → Except ValidateError Digest) (alg : Nat)
    (H : List Nat → List Nat) : PolicyElement → Digest → Except ValidateError Digest
  | .assertion id, d => f id d
  | .branchNode branches, d =>
    match branches with
    | [] => .ok d
    | b :: bs =>
      match validateBranchDigests f alg H (b :: bs) d with
      | .error e => .error e
      | .ok digests =>
        match checkStoredDigests alg (b :: bs) digests with
        | .error e => .error e
        | .ok () =>
          match newPolicyOrTree H digests with
          | .error msg => .error (.treeError msg)
          | .ok tree => .ok (replayOR H (selectBranch tree 0) d)
termination_by e _ => sizeOf e
decreasing_by all_goals (simp; try omega)

/-- Recomputes the digest of each branch, every branch starting from the
current session digest `d` (`policyBranchNodeContext.computeBranchDigest`,
policy.go lines 789-811). -/
def validateBranchDigests (f : Nat → Digest → Except ValidateError Digest)
    (alg : Nat) (H : List Nat → List Nat) :
    List PolicyBranch → Digest → Except ValidateError (List Digest)
  | [], _ => .ok []
  | .mk _ _ elements :: bs, d =>
    match validateElems f alg H elements d with
    | .error e => .error e
    | .ok dig =>
      match validateBranchDigests f alg H bs d with
      | .error e => .error e
      | .ok rest => .ok (dig :: rest)
termination_by bs _ => sizeOf bs
decreasing_by all_goals (simp; try omega)

/-- Runs a sequence of elements on the validating compute session. -/
def validateElems (f : Nat → Digest → Except ValidateError Digest) (alg : Nat)
    (H : List Nat → List Nat) :
    List PolicyElement → Digest → Except ValidateError Digest
  | [], d => .ok d
  | e :: es, d =>
    match validateElem f alg H e d with
    | .error err => .error err
    | .ok d2 => validateElems f alg H es d2
termination_by es _ => sizeOf es
decreasing_by all_goals (simp; try omega)
end

/-- Embeds `Policy.Validate` (policy.go lines 1283-1303): the policy is run
on a compute session seeded with an all-zero digest of the algorithm's size,
and the final digest is returned. -/
def policyValidate (f : Nat → Digest → Except ValidateError Digest) (alg : Nat)
    (H : List Nat → List Nat) (algSize : Nat) (p : List PolicyElement) :
    Except ValidateError Digest :=
  validateElems f alg H p (List.replicate algSize 0)

mutual
/-- The pure digest recomputation (spec side of C4): identical to
`validateElem` except that stored digests are not compared. -/
def computeElem (f : Nat → Digest → Except ValidateError Digest) (alg : Nat)
    (H : List Nat → List Nat) : PolicyElement → Digest → Except ValidateError Digest
  | .assertion id, d => f id d
  | .branchNode branches, d =>
    match branches with
    | [] => .ok d
    | b :: bs =>
      match computeBranchDigests f alg H (b :: bs) d with
      | .error e => .error e
      | .ok digests =>
        match newPolicyOrTree H digests with
        | .error msg => .error (.treeError msg)
        | .ok tree => .ok (replayOR H (selectBranch tree 0) d)
termination_by e _ => sizeOf e
decreasing_by all_goals (simp; try omega)

/-- Pure recomputation of each branch's digest. -/
def computeBranchDigests (f : Nat → Digest → Except ValidateError Digest)
    (alg : Nat) (H : List Nat → List Nat) :
    List PolicyBranch → Digest → Except ValidateError (List Digest)
  | [], _ => .ok []
  | .mk _ _ elements :: bs, d =>
    match computeElems f alg H elements d with
    | .error e => .error e
    | .ok dig =>
      match computeBranchDigests f alg H bs d with
      | .error e => .error e
      | .ok rest => .ok (dig :: rest)
termination_by bs _ => sizeOf bs
decreasing_by all_goals (simp; try omega)

/-- Pure recomputation over a sequence of elements. -/
def computeElems (f : Nat → Digest → Except ValidateError Digest) (alg : Nat)
    (H : List Nat → List Nat) :
    List PolicyElement → Digest → Except ValidateError Digest
  | [], d => .ok d
  | e :: es, d =>
    match computeElem f alg H e d with
    | .error err => .error err
    | .ok d2 => computeElems f alg H es d2
termination_by es _ => sizeOf es
decreasing_by all_goals (simp; try omega)
end

instance : Inhabited PolicyBranch := ⟨.mk "" [] []⟩

theorem checkBranchStored_ok_iff (alg : Nat) :
    ∀ (stored : List (Nat × Digest)) (c : Digest),
      checkBranchStored alg stored c = .ok () ↔
        ∀ pr ∈ stored, pr.1 = alg → pr.2 = c
  | [], c => by simp [checkBranchStored]
  | (a, dg) :: rest, c => by
    rw [checkBranchStored]
    by_cases ha : a = alg
    · by_cases hdg : dg = c
      · rw [if_pos ha, if_pos hdg, checkBranchStored_ok_iff alg rest c]
        constructor
        · rintro h pr hpr
          rcases List.mem_cons.mp hpr with hpr | hpr
          · rw [hpr]
            intro _
            exact hdg
          · exact h pr hpr
        · intro h pr hpr
          exact h pr (List.mem_cons_of_mem _ hpr)
      · rw [if_pos ha, if_neg hdg]
        constructor
        · intro h
          cases h
        · intro h
          exact absurd (h (a, dg) (List.mem_cons_self _ _) ha) hdg
    · rw [if_neg ha, checkBranchStored_ok_iff alg rest c]
      constructor
      · intro h pr hpr
        rcases List.mem_cons.mp hpr with hpr | hpr
        · rw [hpr]
          intro hc
          exact absurd hc ha
        · exact h pr hpr
      · intro h pr hpr
        exact h pr (List.mem_cons_of_mem _ hpr)

theorem checkBranchStored_error (alg : Nat) :
    ∀ (stored : List (Nat × Digest)) (c : Digest) (e : ValidateError),
      checkBranchStored alg stored c = .error e →
        ∃ s, e = .mismatch c s ∧ (alg, s) ∈ stored ∧ s ≠ c
  | [], c, e => by simp [checkBranchStored]
  | (a, dg) :: rest, c, e => by
    rw [checkBranchStored]
    by_cases ha : a = alg
    · by_cases hdg : dg = c
      · rw [if_pos ha, if_pos hdg]
        intro h
        obtain ⟨s, hs1, hs2, hs3⟩ := checkBranchStored_error alg rest c e h
        exact ⟨s, hs1, List.mem_cons_of_mem _ hs2, hs3⟩
      · rw [if_pos ha, if_neg hdg]
        intro h
        cases h
        exact ⟨dg, rfl, by rw [← ha]; exact List.mem_cons_self _ _, hdg⟩
    · rw [if_neg ha]
      intro h
      obtain ⟨s, hs1, hs2, hs3⟩ := checkBranchStored_error alg rest c e h
      exact ⟨s, hs1, List.mem_cons_of_mem _ hs2, hs3⟩

theorem checkStoredDigests_ok_iff (alg : Nat) :
    ∀ (bs : List PolicyBranch) (cs : List Digest), bs.length = cs.length →
      (checkStoredDigests alg bs cs = .ok () ↔
        ∀ i < bs.length, ∀ pr ∈ (bs.getD i default).storedDigests,
          pr.1 = alg → pr.2 = cs.getD i [])
  | [], [], _ => by simp [checkStoredDigests]
  | [], _ :: _, h => by simp at h
  | _ :: _, [], h => by simp at h
  | b :: bs, c :: cs, h => by
    have h2 : bs.length = cs.length := by simpa using h
    rw [checkStoredDigests]
    cases hcb : checkBranchStored alg b.storedDigests c with
    | error e =>
      constructor
      · intro hfalse
        cases hfalse
      · intro hall
        obtain ⟨s, hs1, hs2, hs3⟩ := checkBranchStored_error alg _ _ _ hcb
        exact absurd (hall 0 (by simp) (alg, s) (by simpa using hs2) rfl) hs3
    | ok u =>
      cases u
      rw [checkStoredDigests_ok_iff alg bs cs h2]
      constructor
      · intro hrest i hi pr hpr hpralg
        match i with
        | 0 =>
          simp only [List.getD_cons_zero] at hpr ⊢
          exact (checkBranchStored_ok_iff alg _ _).mp hcb pr hpr hpralg
        | i + 1 =>
          simp only [List.getD_cons_succ] at hpr ⊢
          exact hrest i (by simpa using hi) pr hpr hpralg
      · intro hall i hi pr hpr hpralg
        have := hall (i + 1) (by simpa using hi) pr (by simpa using hpr) hpralg
        simpa using this

theorem checkStoredDigests_error (alg : Nat) :
    ∀ (bs : List PolicyBranch) (cs : List Digest) (e : ValidateError),
      checkStoredDigests alg bs cs = .error e →
        ∃ i s, i < bs.length ∧ i < cs.length ∧
          e = .mismatch (cs.getD i []) s ∧
          (alg, s) ∈ (bs.getD i default).storedDigests ∧ s ≠ cs.getD i []
  | [], cs, e => by simp [checkStoredDigests]
  | b :: bs, [], e => by simp [checkStoredDigests]
  | b :: bs, c :: cs, e => by
    rw [checkStoredDigests]
    cases hcb : checkBranchStored alg b.storedDigests c with
    | error e2 =>
      intro h
      cases h
      obtain ⟨s, hs1, hs2, hs3⟩ := checkBranchStored_error alg _ _ _ hcb
      exact ⟨0, s, by simp, by simp, by simpa using hs1, by simpa using hs2,
        by simpa using hs3⟩
    | ok u =>
      cases u
      intro h
      obtain ⟨i, s, hi1, hi2, hs1, hs2, hs3⟩ :=
        checkStoredDigests_error alg bs cs e h
      exact ⟨i + 1, s, by simpa using hi1, by simpa using hi2, by simpa using hs1,
        by simpa using hs2, by simpa using hs3⟩

mutual

theorem validateElem_ok_compute {f : Nat → Digest → Except ValidateError Digest}
    {alg : Nat} {H : List Nat → List Nat} :
    ∀ (e : PolicyElement) (d out : Digest),
      validateElem f alg H e d = .ok out → computeElem f alg H e d = .ok out
  | .assertion id, d, out => by
    intro h
    simp only [validateElem] at h
    simp only [computeElem]
    exact h
  | .branchNode [], d, out => by
    intro h
    simp only [validateElem] at h
    simp only [computeElem]
    exact h
  | .branchNode (b :: bs), d, out => by
    intro h
    simp only [validateElem] at h
    simp only [computeElem]
    split at h
    · cases h
    · rename_i digests hvb
      rw [validateBranchDigests_ok_compute (b :: bs) d digests hvb]
      split at h
      · cases h
      · exact h
termination_by e _ _ => sizeOf e
decreasing_by all_goals (simp; try omega)

theorem validateBranchDigests_ok_compute
    {f : Nat → Digest → Except ValidateError Digest} {alg : Nat}
    {H : List Nat → List Nat} :
    ∀ (bs : List PolicyBranch) (d : Digest) (cs : List Digest),
      validateBranchDigests f alg H bs d = .ok cs →
        computeBranchDigests f alg H bs d = .ok cs
  | [], d, cs => by
    intro h
    simp only [validateBranchDigests] at h
    simp only [computeBranchDigests]
    exact h
  | .mk n s els :: bs, d, cs => by
    intro h
    simp only [validateBranchDigests] at h
    simp only [computeBranchDigests]
    split at h
    · cases h
    · rename_i dig hve
      rw [validateElems_ok_compute els d dig hve]
      split at h
      · cases h
      · rename_i rest hvb
        rw [validateBranchDigests_ok_compute bs d rest hvb]
        exact h
termination_by bs _ _ => sizeOf bs
decreasing_by all_goals (simp; try omega)

theorem validateElems_ok_compute {f : Nat → Digest → Except ValidateError Digest}
    {alg : Nat} {H : List Nat → List Nat} :
    ∀ (es : List PolicyElement) (d out : Digest),
      validateElems f alg H es d = .ok out → computeElems f alg H es d = .ok out
  | [], d, out => by
    intro h
    simp only [validateElems] at h
    simp only [computeElems]
    exact h
  | e :: es, d, out => by
    intro h
    simp only [validateElems] at h
    simp only [computeElems]
    split at h
    · cases h
    · rename_i d2 hve
      rw [validateElem_ok_compute e d d2 hve]
      exact validateElems_ok_compute es d2 out h
termination_by es _ _ => sizeOf es
decreasing_by all_goals (simp; try omega)

end

/-- C4: `Policy.Validate` descends into every branch of every branch node and
recomputes each branch's digest for the validation algorithm (on success its
result agrees with the comparison-free recomputation); a stored digest for
the validation algorithm that differs from the recomputed one is exactly what
makes the per-branch comparison fail, and its error reports both the computed
and the stored digest; a branch node whose comparison fails propagates that
error, and one whose comparisons all pass continues with the TPM2_PolicyOR
replay digest; on overall success the final top-level digest is returned. -/
theorem policyValidate_spec (f : Nat → Digest → Except ValidateError Digest)
    (alg : Nat) (H : List Nat → List Nat) (algSize : Nat) :
    (∀ p out, policyValidate f alg H algSize p = .ok out →
      computeElems f alg H p (List.replicate algSize 0) = .ok out) ∧
    (∀ stored c, checkBranchStored alg stored c = .ok () ↔
      ∀ pr ∈ stored, pr.1 = alg → pr.2 = c) ∧
    (∀ stored c e, checkBranchStored alg stored c = .error e →
      ∃ s, e = .mismatch c s ∧ (alg, s) ∈ stored ∧ s ≠ c) ∧
    (∀ b bs d cs e, validateBranchDigests f alg H (b :: bs) d = .ok cs →
      checkStoredDigests alg (b :: bs) cs = .error e →
      validateElem f alg H (.branchNode (b :: bs)) d = .error e) ∧
    (∀ b bs d cs tree, validateBranchDigests f alg H (b :: bs) d = .ok cs →
      checkStoredDigests alg (b :: bs) cs = .ok () →
      newPolicyOrTree H cs = .ok tree →
      validateElem f alg H (.branchNode (b :: bs)) d =
        .ok (replayOR H (selectBranch tree 0) d)) := by
  refine ⟨?_, checkBranchStored_ok_iff alg, checkBranchStored_error alg, ?_, ?_⟩
  · intro p out h
    rw [policyValidate] at h
    exact validateElems_ok_compute p _ out h
  · intro b bs d cs e hvb hcs
    simp only [validateElem, hvb, hcs]
  · intro b bs d cs tree hvb hcs htree
    simp only [validateElem, hvb, hcs, htree]

/-- A concrete per-assertion digest update used to instantiate the validation
theorem. -/
def sampleUpdate : Nat → Digest → Except ValidateError Digest :=
  fun id d => .ok (id :: d)

theorem policyValidate_spec_witness :
    checkBranchStored 11 [(11, [7])] [5] = .error (.mismatch [5] [7]) ∧
    ∃ s, ValidateError.mismatch [5] [7] = .mismatch [5] s ∧
      ((11 : Nat), s) ∈ [((11 : Nat), ([7] : Digest))] ∧ s ≠ [5] :=
  ⟨by rfl,
    (policyValidate_spec sampleUpdate 11 sampleHash 2).2.2.1 [(11, [7])] [5]
      (.mismatch [5] [7]) (by rfl)⟩

end PolicyUtil
